import Mathlib

set_option maxHeartbeats 1000000

/- The Batteries rational-number arithmetic is marked irreducible, which
blocks `decide` / `rfl` evaluation of the parser on concrete inputs; restore
the default reducibility (the kernel unfolds these anyway). -/
set_option allowUnsafeReducibility true
attribute [semireducible] Rat.mul Rat.add Rat.sub Rat.inv Rat.ofScientific

/-!
Verification development for a G-code toolpath parser (`GCodeParser`).

The source is a JavaScript class.  We give a shallow embedding:

* JavaScript numbers are modelled by `GCV.JSV`: `NaN`, `-Infinity`,
  `+Infinity`, or a finite value, with the finite values idealised as exact
  rationals (no rounding / overflow).  The arithmetic, comparison, `Math.min`
  / `Math.max` / `Math.floor` and truthiness operations mirror the IEEE / JS
  semantics the source relies on (`NaN` propagates, `NaN === NaN` is false,
  comparisons with `NaN` are false, `-Infinity - Infinity = -Infinity`, ...).
  Negative-zero quirks are not modelled (`0 - 0` is `+0` in JS, and the
  parser cannot distinguish `+0` from `-0` in any observable way here).
* The transcendental functions used by the arc linearizer
  (`Math.sqrt`, `Math.cos`, `Math.sin`, `Math.atan2`, `Math.PI`) are
  abstracted into a parameter structure `NumOps`; all structural theorems
  hold for every choice of these operations.  A second model over `ℝ` with
  the true `Real.cos` / `Real.sin` / `arctan`-based `atan2` is used for the
  claims that depend on actual trigonometry.
* The metadata pass (`parseComments`) only fills the `tools` / `sheet` /
  `material` / `jobName` / `outputDate` side tables, which no claim under
  verification observes; those side tables (and the unread non-axis
  parameter letters) are omitted from the state.  Everything that can affect
  `segments`, `bounds`, `stats`, machine position, feed, tool-change
  counting and the cycle-time estimate is modelled faithfully.
* Declared string idealizations, immaterial to the claims: the JS regexes
  `/;.*$/` and `/\(.*?\)/` never match across a line terminator, so on input
  whose lines still contain a carriage return the source keeps `;`-comments
  and CR-containing parenthesised groups that `stripSemi` / `stripParens`
  strip; and `Char.toUpper` is ASCII-only where JS `toUpperCase` is
  Unicode-aware.
-/

namespace GCV

/-- A JavaScript number: `NaN`, `-Infinity`, a finite (idealised rational)
value, or `+Infinity`. -/
inductive JSV where
  | nan : JSV
  | negInf : JSV
  | fin (q : ℚ) : JSV
  | posInf : JSV
deriving DecidableEq, Repr

namespace JSV

/-- JS unary minus. -/
def jsNeg : JSV → JSV
  | nan => nan
  | negInf => posInf
  | posInf => negInf
  | fin q => fin (-q)

/-- JS `+` on numbers. -/
def jsAdd : JSV → JSV → JSV
  | nan, _ => nan
  | _, nan => nan
  | posInf, negInf => nan
  | negInf, posInf => nan
  | posInf, _ => posInf
  | _, posInf => posInf
  | negInf, _ => negInf
  | _, negInf => negInf
  | fin a, fin b => fin (a + b)

/-- JS `-` on numbers (equals `a + (-b)` in IEEE arithmetic). -/
def jsSub (a b : JSV) : JSV := jsAdd a (jsNeg b)

/-- JS `*` on numbers. -/
def jsMul : JSV → JSV → JSV
  | nan, _ => nan
  | _, nan => nan
  | fin a, fin b => fin (a * b)
  | posInf, posInf => posInf
  | posInf, negInf => negInf
  | negInf, posInf => negInf
  | negInf, negInf => posInf
  | posInf, fin b => if b = 0 then nan else if 0 < b then posInf else negInf
  | fin a, posInf => if a = 0 then nan else if 0 < a then posInf else negInf
  | negInf, fin b => if b = 0 then nan else if 0 < b then negInf else posInf
  | fin a, negInf => if a = 0 then nan else if 0 < a then negInf else posInf

/-- JS `/` on numbers. -/
def jsDiv : JSV → JSV → JSV
  | nan, _ => nan
  | _, nan => nan
  | fin a, fin b =>
      if b = 0 then (if a = 0 then nan else if 0 < a then posInf else negInf)
      else fin (a / b)
  | fin _, posInf => fin 0
  | fin _, negInf => fin 0
  | posInf, fin b => if 0 ≤ b then posInf else negInf
  | negInf, fin b => if 0 ≤ b then negInf else posInf
  | _, _ => nan

/-- JS `<` (false whenever `NaN` is involved). -/
def jsLtB : JSV → JSV → Bool
  | nan, _ => false
  | _, nan => false
  | negInf, negInf => false
  | negInf, _ => true
  | fin _, negInf => false
  | fin a, fin b => decide (a < b)
  | fin _, posInf => true
  | posInf, _ => false

/-- JS `<=` (false whenever `NaN` is involved). -/
def jsLeB : JSV → JSV → Bool
  | nan, _ => false
  | _, nan => false
  | negInf, _ => true
  | _, posInf => true
  | fin a, fin b => decide (a ≤ b)
  | fin _, negInf => false
  | posInf, fin _ => false
  | posInf, negInf => false

/-- JS `>`. -/
def jsGtB (a b : JSV) : Bool := jsLtB b a

/-- JS `>=`. -/
def jsGeB (a b : JSV) : Bool := jsLeB b a

/-- JS `===` on numbers (`NaN === NaN` is false). -/
def jsEqB : JSV → JSV → Bool
  | nan, _ => false
  | _, nan => false
  | fin a, fin b => decide (a = b)
  | posInf, posInf => true
  | negInf, negInf => true
  | _, _ => false

/-- JS `Math.min` of two values (`NaN` wins). -/
def jsMin (a b : JSV) : JSV :=
  match a, b with
  | nan, _ => nan
  | _, nan => nan
  | x, y => if jsLeB x y then x else y

/-- JS `Math.max` of two values (`NaN` wins). -/
def jsMax (a b : JSV) : JSV :=
  match a, b with
  | nan, _ => nan
  | _, nan => nan
  | x, y => if jsLeB x y then y else x

/-- JS number truthiness (`0` and `NaN` are falsy). -/
def jsTruthy : JSV → Bool
  | nan => false
  | fin q => decide (q ≠ 0)
  | _ => true

/-- JS `Math.floor`. -/
def jsFloor : JSV → JSV
  | nan => nan
  | posInf => posInf
  | negInf => negInf
  | fin q => fin (⌊q⌋ : ℚ)

/-- Is this a finite (non-`NaN`, non-infinite) value? -/
def isFin : JSV → Bool
  | fin _ => true
  | _ => false

end JSV

open JSV

/-- The abstracted transcendental operations (`Math.sqrt`, `Math.cos`,
`Math.sin`, `Math.atan2`, `Math.PI`).  The structural behaviour of the parser
does not depend on their values. -/
structure NumOps where
  sqrt : JSV → JSV
  cos : JSV → JSV
  sin : JSV → JSV
  atan2 : JSV → JSV → JSV
  pi : JSV

/-- A concrete instantiation of `NumOps`, used to evaluate the parser on
concrete inputs in witnesses and counterexamples (the statements evaluated
with it do not depend on the values of these operations). -/
def dummyOps : NumOps :=
  { sqrt := fun _ => .fin 0
    cos := fun _ => .fin 1
    sin := fun _ => .fin 0
    atan2 := fun _ _ => .fin 0
    pi := .fin 3 }

/-- A 3-D point (machine coordinates). -/
structure Pt3 where
  x : JSV
  y : JSV
  z : JSV
deriving DecidableEq, Repr

/-- The motion type strings used by the source (`'rapid'`, `'cut'`,
`'cw_arc'`, `'ccw_arc'`). -/
inductive MoveType where
  | rapid : MoveType
  | cut : MoveType
  | cw_arc : MoveType
  | ccw_arc : MoveType
deriving DecidableEq, Repr

/-- One toolpath segment, as pushed onto `this.segments`
(`from` / `to` are Lean keywords, hence `fromPt` / `toPt`). -/
structure Seg where
  type : MoveType
  fromPt : Pt3
  toPt : Pt3
  tool : Option JSV
  line : ℕ
deriving DecidableEq, Repr

/-- The running axis-aligned bounding box `this.bounds`. -/
structure Bounds where
  min : Pt3
  max : Pt3
deriving DecidableEq, Repr

/-- `this.bounds` right after `reset()`. -/
def emptyBounds : Bounds :=
  ⟨⟨.posInf, .posInf, .posInf⟩, ⟨.negInf, .negInf, .negInf⟩⟩

/-- `updateBounds(x, y, z)` from the source. -/
def updateBounds (b : Bounds) (x y z : JSV) : Bounds :=
  ⟨⟨jsMin b.min.x x, jsMin b.min.y y, jsMin b.min.z z⟩,
   ⟨jsMax b.max.x x, jsMax b.max.y y, jsMax b.max.z z⟩⟩

/-- The per-line parameter words read by the interpreter.  The source stores
every non-`G`/`N`/`T`/`S` letter in a dictionary; only `X Y Z I J F` (and the
stored-but-unread `M`) are ever read back, so only those are kept. -/
structure Params where
  x : Option JSV := none
  y : Option JSV := none
  z : Option JSV := none
  i : Option JSV := none
  j : Option JSV := none
  f : Option JSV := none
  m : Option JSV := none
deriving DecidableEq, Repr

/-- The mutable parser state (the fields of `GCodeParser` that motion
parsing can read or write; the metadata-only side tables are omitted). -/
structure PState where
  x : JSV
  y : JSV
  z : JSV
  feedRate : JSV
  absoluteMode : Bool
  segments : List Seg
  bounds : Bounds
  lineCount : ℕ
  moveCount : ℕ
  programEnded : Bool
  lastMoveType : Option MoveType
  currentTool : Option JSV
  currentSpindleSpeed : JSV
  totalCutDist : JSV
  totalRapidDist : JSV
  feedSegments : List (JSV × JSV)
  rapidRate : JSV
  toolChangeTimeC : JSV
  toolChangeCount : ℕ
deriving DecidableEq, Repr

/-- `reset()` from the source. -/
def initState : PState :=
  { x := .fin 0, y := .fin 0, z := .fin 0
    feedRate := .fin 0
    absoluteMode := true
    segments := []
    bounds := emptyBounds
    lineCount := 0
    moveCount := 0
    programEnded := false
    lastMoveType := none
    currentTool := none
    currentSpindleSpeed := .fin 0
    totalCutDist := .fin 0
    totalRapidDist := .fin 0
    feedSegments := []
    rapidRate := .fin 400
    toolChangeTimeC := .fin 8
    toolChangeCount := 0 }

/-! ## Line cleaning and tokenization -/

/-- `line.replace(/;.*$/, '')`: drop everything from the first `;` on. -/
def stripSemi (cs : List Char) : List Char := cs.takeWhile (fun c => c ≠ ';')

/-- Worker for `stripParens`.  The first component buffers (in reverse) the
characters seen since an as-yet-unclosed `(`. -/
def stripParensAux : Option (List Char) → List Char → List Char
  | none, [] => []
  | some buf, [] => buf.reverse
  | none, c :: cs => if c = '(' then stripParensAux (some [c]) cs else c :: stripParensAux none cs
  | some buf, c :: cs =>
      if c = ')' then stripParensAux none cs else stripParensAux (some (c :: buf)) cs

/-- `line.replace(/\(.*?\)/g, '')`: remove every lazily matched
parenthesised group; a `(` with no later `)` is kept verbatim. -/
def stripParens (cs : List Char) : List Char := stripParensAux none cs

/-- The whitespace characters relevant to `String.prototype.trim` here
(idealised to the ASCII ones). -/
def isWS (c : Char) : Bool := c = ' ' || c = '\t' || c = '\r' || c = '\n'

/-- `.trim()`. -/
def trimWS (cs : List Char) : List Char :=
  ((cs.dropWhile isWS).reverse.dropWhile isWS).reverse

/-- The full cleaning pipeline of `parseLine`:
`line.replace(/;.*$/, '').replace(/\(.*?\)/g, '').trim().toUpperCase()`. -/
def cleanLine (cs : List Char) : List Char :=
  (trimWS (stripParens (stripSemi cs))).map Char.toUpper

/-- Uppercase ASCII letter. -/
def isUL (c : Char) : Bool := 'A' ≤ c && c ≤ 'Z'

/-- A digit or a dot (the `[\d.]` character class). -/
def isDigitDot (c : Char) : Bool := c.isDigit || c = '.'

/-- Scanner state for the tokenizer regex `([A-Z])-?[\d.]+` (global). -/
inductive TkSt where
  | idle : TkSt
  | afterL (l : Char) : TkSt
  | afterM (l : Char) : TkSt
  | inNum (l : Char) (neg : Bool) (ds : List Char) : TkSt

/-- Finish a number in progress: rebuild `word.substring(1)`. -/
def tkFlush (neg : Bool) (ds : List Char) : List Char :=
  (if neg then ['-'] else []) ++ ds.reverse

/-- The tokenizer `tokenize(line)` as a character-level state machine;
faithful to the regex scan `([A-Z])-?[\d.]+` with global restart semantics
(a failed match at a letter resumes scanning at the next character). -/
def tokenizeAux : TkSt → List Char → List (Char × List Char)
  | .inNum l neg ds, [] => [(l, tkFlush neg ds)]
  | _, [] => []
  | .idle, c :: cs => if isUL c then tokenizeAux (.afterL c) cs else tokenizeAux .idle cs
  | .afterL l, c :: cs =>
      if isDigitDot c then tokenizeAux (.inNum l false [c]) cs
      else if c = '-' then tokenizeAux (.afterM l) cs
      else if isUL c then tokenizeAux (.afterL c) cs
      else tokenizeAux .idle cs
  | .afterM l, c :: cs =>
      if isDigitDot c then tokenizeAux (.inNum l true [c]) cs
      else if isUL c then tokenizeAux (.afterL c) cs
      else tokenizeAux .idle cs
  | .inNum l neg ds, c :: cs =>
      if isDigitDot c then tokenizeAux (.inNum l neg (c :: ds)) cs
      else (l, tkFlush neg ds) ::
           (if isUL c then tokenizeAux (.afterL c) cs else tokenizeAux .idle cs)

/-- `tokenize(line)`: each word is returned as (letter, rest of the word). -/
def tokenize (cs : List Char) : List (Char × List Char) := tokenizeAux .idle cs

/-- Numeric value of a digit string. -/
def digitsVal (cs : List Char) : ℚ :=
  cs.foldl (fun a c => a * 10 + (c.toNat - '0'.toNat : ℕ)) 0

/-- `parseFloat` on strings of shape `[\d.]+` (an optional leading `-` is
handled by `jsParseFloat`): longest valid numeric prefix, `NaN` if there is
no digit before the second dot. -/
def jsParseFloatCore (cs : List Char) (neg : Bool) : JSV :=
  let d1 := cs.takeWhile Char.isDigit
  let r1 := cs.dropWhile Char.isDigit
  let d2 := match r1 with
    | '.' :: r2 => r2.takeWhile Char.isDigit
    | _ => []
  if d1.isEmpty && d2.isEmpty then .nan
  else
    let v : ℚ := digitsVal d1 + digitsVal d2 / (10 ^ d2.length : ℚ)
    .fin (if neg then -v else v)

/-- `parseFloat(word.substring(1))` for tokenizer words. -/
def jsParseFloat : List Char → JSV
  | '-' :: rest => jsParseFloatCore rest true
  | cs => jsParseFloatCore cs false

/-! ## The modal interpreter -/

/-- Accumulator of the per-word loop in `parseLine`: the collected `G` code
values, the parameter dictionary, and the state effects of `T` / `S` words. -/
structure LineAcc where
  gCodes : List JSV
  params : Params
  st : PState

/-- One iteration of the word loop in `parseLine`.  `N` words are dropped,
`M` words are stored in the parameter map (never read back), `T` sets the
current tool (`Math.floor`) and counts a tool change, `S` sets the spindle
speed, everything else is a parameter (`X Y Z I J F` are the read ones;
the source also stores other letters, which are never read). -/
def applyWord (acc : LineAcc) (w : Char × List Char) : LineAcc :=
  let value := jsParseFloat w.2
  if w.1 = 'G' then { acc with gCodes := acc.gCodes ++ [value] }
  else if w.1 = 'N' then acc
  else if w.1 = 'M' then { acc with params := { acc.params with m := some value } }
  else if w.1 = 'T' then
    { acc with st := { acc.st with
        currentTool := some (jsFloor value)
        toolChangeCount := acc.st.toolChangeCount + 1 } }
  else if w.1 = 'S' then
    { acc with st := { acc.st with currentSpindleSpeed := value } }
  else if w.1 = 'X' then { acc with params := { acc.params with x := some value } }
  else if w.1 = 'Y' then { acc with params := { acc.params with y := some value } }
  else if w.1 = 'Z' then { acc with params := { acc.params with z := some value } }
  else if w.1 = 'I' then { acc with params := { acc.params with i := some value } }
  else if w.1 = 'J' then { acc with params := { acc.params with j := some value } }
  else if w.1 = 'F' then { acc with params := { acc.params with f := some value } }
  else acc

/-- Is this `G` value one of the codes that abort the line
(`case 28: return; case 30: return; case 399: return;`)? -/
def isSkipCode (g : JSV) : Bool :=
  jsEqB g (.fin 28) || jsEqB g (.fin 30) || jsEqB g (.fin 399)

/-- The `for (const g of gCodes) switch (g) ...` loop.  `G90`/`G91` toggle
the positioning mode; `G28`/`G30`/`G399` abort the whole line (second
component `true`); all other recognised codes are explicit no-ops. -/
def applyGCodes : PState → List JSV → PState × Bool
  | st, [] => (st, false)
  | st, g :: rest =>
      if jsEqB g (.fin 90) then applyGCodes { st with absoluteMode := true } rest
      else if jsEqB g (.fin 91) then applyGCodes { st with absoluteMode := false } rest
      else if isSkipCode g then (st, true)
      else applyGCodes st rest

/-- The motion-type resolution loop over the line's `G` codes
(last match wins). -/
def moveTypeOf (gs : List JSV) : Option MoveType :=
  gs.foldl
    (fun mt g =>
      if jsEqB g (.fin 0) then some .rapid
      else if jsEqB g (.fin 1) then some .cut
      else if jsEqB g (.fin 2) then some .cw_arc
      else if jsEqB g (.fin 3) then some .ccw_arc
      else mt)
    none

/-- The target position of a linear move: in absolute mode a present
parameter replaces the coordinate, in incremental mode it is added;
an absent axis is left unchanged. -/
def linTarget (st : PState) (p : Params) : Pt3 :=
  if st.absoluteMode then
    ⟨p.x.getD st.x, p.y.getD st.y, p.z.getD st.z⟩
  else
    ⟨p.x.elim st.x (fun v => jsAdd st.x v),
     p.y.elim st.y (fun v => jsAdd st.y v),
     p.z.elim st.z (fun v => jsAdd st.z v)⟩

/-- Squared-sum helper for the Euclidean distance computations
(`a ** 2` is `a * a`). -/
def sumSq (dx dy dz : JSV) : JSV :=
  jsAdd (jsAdd (jsMul dx dx) (jsMul dy dy)) (jsMul dz dz)

/-- `processLinearMove(type, params, lineNumber)`. -/
def processLinearMove (ops : NumOps) (type : MoveType) (p : Params) (lineNumber : ℕ)
    (st : PState) : PState :=
  let sx := st.x
  let sy := st.y
  let sz := st.z
  let t := linTarget st p
  let st := { st with x := t.x, y := t.y, z := t.z }
  if jsEqB sx st.x && jsEqB sy st.y && jsEqB sz st.z then st
  else
    let dist := ops.sqrt (sumSq (jsSub st.x sx) (jsSub st.y sy) (jsSub st.z sz))
    let st :=
      if type = .rapid then { st with totalRapidDist := jsAdd st.totalRapidDist dist }
      else
        { st with
            totalCutDist := jsAdd st.totalCutDist dist
            feedSegments := st.feedSegments ++
              [(dist, if jsTruthy st.feedRate then st.feedRate else .fin 100)] }
    let st := { st with
        bounds := updateBounds st.bounds st.x st.y st.z
        moveCount := st.moveCount + 1 }
    { st with segments := st.segments ++
        [⟨type, ⟨sx, sy, sz⟩, ⟨st.x, st.y, st.z⟩, st.currentTool, lineNumber⟩] }

/-- The arc's commanded end point
(`this.absoluteMode ? (params.X ?? this.x) : this.x + (params.X ?? 0)`). -/
def arcEnd (st : PState) (p : Params) : Pt3 :=
  ⟨if st.absoluteMode then p.x.getD st.x else jsAdd st.x (p.x.getD (.fin 0)),
   if st.absoluteMode then p.y.getD st.y else jsAdd st.y (p.y.getD (.fin 0)),
   if st.absoluteMode then p.z.getD st.z else jsAdd st.z (p.z.getD (.fin 0))⟩

/-- `const arcSegments = 32`. -/
def arcSegments : ℕ := 32

/-- Accumulator of the arc interpolation loop: segments pushed so far, the
accumulated polyline length `arcDist`, the previous vertex, and the running
bounds. -/
structure ArcAcc where
  segs : List Seg
  dist : JSV
  prev : Pt3
  bnds : Bounds

/-- The polyline vertex `(nx, ny, nz)` computed at step `s` of the arc
interpolation loop (`t = s / arcSegments`). -/
def arcVertex (ops : NumOps) (cx cy radius startAngle angleSpan startZ zSpan : JSV)
    (s : ℕ) : Pt3 :=
  let t : ℚ := (s : ℚ) / (arcSegments : ℚ)
  let angle := jsAdd startAngle (jsMul angleSpan (.fin t))
  ⟨jsAdd cx (jsMul radius (ops.cos angle)),
   jsAdd cy (jsMul radius (ops.sin angle)),
   jsAdd startZ (jsMul zSpan (.fin t))⟩

/-- One iteration (step `s`) of the arc interpolation loop. -/
def arcStep (ops : NumOps) (cx cy radius startAngle angleSpan startZ zSpan : JSV)
    (tool : Option JSV) (lineNumber : ℕ) (acc : ArcAcc) (s : ℕ) : ArcAcc :=
  let v := arcVertex ops cx cy radius startAngle angleSpan startZ zSpan s
  let segDist := ops.sqrt (sumSq (jsSub v.x acc.prev.x) (jsSub v.y acc.prev.y)
      (jsSub v.z acc.prev.z))
  { segs := acc.segs ++ [⟨.cut, acc.prev, v, tool, lineNumber⟩]
    dist := jsAdd acc.dist segDist
    prev := v
    bnds := updateBounds acc.bnds v.x v.y v.z }

/-- `const i = params.I ?? 0; const j = params.J ?? 0` (always incremental
offsets from the start point). -/
def arcI (p : Params) : JSV := p.i.getD (.fin 0)

/-- See `arcI`. -/
def arcJ (p : Params) : JSV := p.j.getD (.fin 0)

/-- `centerX = startX + i`. -/
def arcCX (st : PState) (p : Params) : JSV := jsAdd st.x (arcI p)

/-- `centerY = startY + j`. -/
def arcCY (st : PState) (p : Params) : JSV := jsAdd st.y (arcJ p)

/-- `radius = Math.sqrt(i*i + j*j)`. -/
def arcRadius (ops : NumOps) (p : Params) : JSV :=
  ops.sqrt (jsAdd (jsMul (arcI p) (arcI p)) (jsMul (arcJ p) (arcJ p)))

/-- `startAngle = Math.atan2(startY - centerY, startX - centerX)`. -/
def arcSA (ops : NumOps) (st : PState) (p : Params) : JSV :=
  ops.atan2 (jsSub st.y (arcCY st p)) (jsSub st.x (arcCX st p))

/-- `endAngle = Math.atan2(endY - centerY, endX - centerX)` (raw, before the
direction correction). -/
def arcEA0 (ops : NumOps) (st : PState) (p : Params) : JSV :=
  ops.atan2 (jsSub (arcEnd st p).y (arcCY st p)) (jsSub (arcEnd st p).x (arcCX st p))

/-- The direction correction: clockwise subtracts a full turn when
`endAngle >= startAngle`; counterclockwise adds one when
`endAngle <= startAngle`. -/
def arcEA (ops : NumOps) (type : MoveType) (st : PState) (p : Params) : JSV :=
  let sa := arcSA ops st p
  let ea0 := arcEA0 ops st p
  let twoPi := jsMul (.fin 2) ops.pi
  if type = .cw_arc then (if jsGeB ea0 sa then jsSub ea0 twoPi else ea0)
  else (if jsLeB ea0 sa then jsAdd ea0 twoPi else ea0)

/-- `angleSpan = endAngle - startAngle` (after correction). -/
def arcSpan (ops : NumOps) (type : MoveType) (st : PState) (p : Params) : JSV :=
  jsSub (arcEA ops type st p) (arcSA ops st p)

/-- `processArc(type, params, lineNumber)`. -/
def processArc (ops : NumOps) (type : MoveType) (p : Params) (lineNumber : ℕ)
    (st : PState) : PState :=
  let e := arcEnd st p
  let a := (List.range' 1 arcSegments).foldl
      (arcStep ops (arcCX st p) (arcCY st p) (arcRadius ops p) (arcSA ops st p)
        (arcSpan ops type st p) st.z (jsSub e.z st.z) st.currentTool lineNumber)
      ⟨[], .fin 0, ⟨st.x, st.y, st.z⟩, st.bounds⟩
  { st with
      segments := st.segments ++ a.segs
      bounds := a.bnds
      totalCutDist := jsAdd st.totalCutDist a.dist
      feedSegments := st.feedSegments ++
        [(a.dist, if jsTruthy st.feedRate then st.feedRate else .fin 100)]
      x := e.x, y := e.y, z := e.z
      moveCount := st.moveCount + 1 }

/-- The motion type of the line: a `G0`/`G1`/`G2`/`G3` if present (last
wins); otherwise, when an axis word is present, the modal carry-over
`this._lastMoveType || 'cut'`; otherwise none. -/
def resolvedMoveType (gs : List JSV) (p : Params) (st2 : PState) : Option MoveType :=
  match moveTypeOf gs with
  | some m => some m
  | none =>
      if p.x.isSome || p.y.isSome || p.z.isSome then some (st2.lastMoveType.getD .cut)
      else none

/-- The move dispatch of `parseLine`: record the motion type as the new
modal `_lastMoveType`, then hand arcs to `processArc` and everything else to
`processLinearMove`. -/
def dispatchMove (ops : NumOps) (mt : Option MoveType) (p : Params) (lineNumber : ℕ)
    (st2 : PState) : PState :=
  match mt with
  | none => st2
  | some m =>
      let stm := { st2 with lastMoveType := some m }
      if m = .cw_arc ∨ m = .ccw_arc then processArc ops m p lineNumber stm
      else processLinearMove ops m p lineNumber stm

/-- `if ('F' in params) this.feedRate = params.F` (runs after the dispatch). -/
def applyFeed (p : Params) (st3 : PState) : PState :=
  match p.f with
  | some v => { st3 with feedRate := v }
  | none => st3

/-- The final word scan for the program-end markers (the literal strings
`'M30'` / `'M02'`). -/
def applyProgramEnd (words : List (Char × List Char)) (st4 : PState) : PState :=
  if words.any (fun w => w.1 = 'M' && (w.2 = ['3', '0'] || w.2 = ['0', '2'])) then
    { st4 with programEnded := true }
  else st4

/-- `parseLine(line, lineNumber)`. -/
def parseLine (ops : NumOps) (st : PState) (lineNumber : ℕ) (raw : List Char) : PState :=
  if st.programEnded then st else
  let cleaned := cleanLine raw
  if cleaned.isEmpty then st else
  if cleaned.head? = some '%' || cleaned.head? = some 'O' then st else
  let words := tokenize cleaned
  if words.isEmpty then st else
  let acc := words.foldl applyWord ⟨[], {}, st⟩
  let gr := applyGCodes acc.st acc.gCodes
  if gr.2 then gr.1 else
  applyProgramEnd words
    (applyFeed acc.params
      (dispatchMove ops (resolvedMoveType acc.gCodes acc.params gr.1) acc.params
        lineNumber gr.1))

/-! ## Post-processing -/

/-- The 2-D bounding rectangle over cut-type segments computed at the top of
`trimParkMoves`. -/
structure CutB where
  minX : JSV
  maxX : JSV
  minY : JSV
  maxY : JSV
deriving DecidableEq, Repr

/-- The sentinel value of the cut rectangle before any cut segment is seen. -/
def emptyCutB : CutB := ⟨.posInf, .negInf, .posInf, .negInf⟩

/-- One step of the cut-rectangle fold (`if (seg.type !== 'rapid') ...`). -/
def cutBStep (cb : CutB) (s : Seg) : CutB :=
  if s.type = .rapid then cb
  else
    ⟨jsMin (jsMin cb.minX s.fromPt.x) s.toPt.x,
     jsMax (jsMax cb.maxX s.fromPt.x) s.toPt.x,
     jsMin (jsMin cb.minY s.fromPt.y) s.toPt.y,
     jsMax (jsMax cb.maxY s.fromPt.y) s.toPt.y⟩

/-- The cut rectangle of a segment list. -/
def cutBoundsOf (segs : List Seg) : CutB := segs.foldl cutBStep emptyCutB

/-- `const margin = Math.max((cutBounds.maxX - cutBounds.minX) * 0.1, 5)`. -/
def marginOf (cb : CutB) : JSV :=
  jsMax (jsMul (jsSub cb.maxX cb.minX) (.fin (1 / 10))) (.fin 5)

/-- The pop condition of the trailing-park-move loop: a rapid segment whose
endpoint is outside the cut rectangle expanded by `margin` on some side. -/
def parkCond (cb : CutB) (margin : JSV) (s : Seg) : Bool :=
  decide (s.type = .rapid) &&
    (jsGtB s.toPt.x (jsAdd cb.maxX margin) || jsLtB s.toPt.x (jsSub cb.minX margin) ||
     jsGtB s.toPt.y (jsAdd cb.maxY margin) || jsLtB s.toPt.y (jsSub cb.minY margin))

/-- The tail-popping loop of `trimParkMoves` on the segment list (popping the
last element while a condition holds is dropping the longest matching suffix). -/
def trimSegs (segs : List Seg) : List Seg :=
  let cb := cutBoundsOf segs
  (segs.reverse.dropWhile (parkCond cb (marginOf cb))).reverse

/-- The bounds recomputation at the end of `trimParkMoves`: a min/max fold
over both endpoints of every surviving segment, starting from the sentinel. -/
def recomputeBounds (segs : List Seg) : Bounds :=
  segs.foldl
    (fun b s =>
      updateBounds (updateBounds b s.fromPt.x s.fromPt.y s.fromPt.z)
        s.toPt.x s.toPt.y s.toPt.z)
    emptyBounds

/-- `trimParkMoves()`. -/
def trimParkMoves (st : PState) : PState :=
  let segs := trimSegs st.segments
  { st with segments := segs, bounds := recomputeBounds segs }

/-- The cycle-time estimate record (the human-readable `formatted` string is
omitted: no claim observes it). -/
structure CycleTime where
  rapidTime : JSV
  cutTime : JSV
  toolChangeTime : JSV
  totalTime : JSV
  totalCutDist : JSV
  totalRapidDist : JSV
deriving DecidableEq, Repr

/-- `calculateCycleTime()`. -/
def calculateCycleTime (st : PState) : CycleTime :=
  let rapidTimeSec := jsMul (jsDiv st.totalRapidDist st.rapidRate) (.fin 60)
  let cutTimeSec := st.feedSegments.foldl
      (fun acc fs =>
        let feed := if jsGtB fs.2 (.fin 0) then fs.2 else .fin 100
        jsAdd acc (jsMul (jsDiv fs.1 feed) (.fin 60)))
      (.fin 0)
  let tcTime := jsMul (jsMax (.fin 0) (jsSub (.fin (st.toolChangeCount : ℚ)) (.fin 1)))
      st.toolChangeTimeC
  let totalSec := jsAdd (jsAdd rapidTimeSec cutTimeSec) tcTime
  { rapidTime := rapidTimeSec
    cutTime := cutTimeSec
    toolChangeTime := tcTime
    totalTime := totalSec
    totalCutDist := st.totalCutDist
    totalRapidDist := st.totalRapidDist }

/-! ## The entry point -/

/-- `gcodeText.split('\n')` on character lists. -/
def splitNl : List Char → List (List Char)
  | [] => [[]]
  | c :: cs =>
      if c = '\n' then [] :: splitNl cs
      else
        match splitNl cs with
        | l :: ls => (c :: l) :: ls
        | [] => [[c]]

/-- The state after the motion pass of `parse(gcodeText)`, before
`trimParkMoves()`.  (The metadata pass `parseComments` only fills side
tables that are not part of this model.) -/
def preState (ops : NumOps) (input : String) : PState :=
  let lines := splitNl input.toList
  lines.enum.foldl (fun st p => parseLine ops st (p.1 + 1) p.2)
    { initState with lineCount := lines.length }

/-- The final parser state of `parse(gcodeText)` (after trimming). -/
def parseState (ops : NumOps) (input : String) : PState :=
  trimParkMoves (preState ops input)

/-- The result record returned by `parse` (the fields the claims observe;
`stats.moveCount` is the final segment count). -/
structure PResult where
  segments : List Seg
  bounds : Bounds
  lineCount : ℕ
  moveCount : ℕ
  cycleTime : CycleTime
deriving DecidableEq, Repr

/-- `parse(gcodeText)`. -/
def parse (ops : NumOps) (input : String) : PResult :=
  let st := parseState ops input
  { segments := st.segments
    bounds := st.bounds
    lineCount := st.lineCount
    moveCount := st.segments.length
    cycleTime := calculateCycleTime st }

/-! ## The arc linearizer over `ℝ` with the true trigonometric functions

This second model mirrors `processArc` with exact real arithmetic and the
mathematical `cos` / `sin` / `atan2` / `π` / `sqrt`, for the claims whose
truth depends on actual trigonometry.  Segment decorations (kind, tool,
line) are handled in the `JSV` model above and omitted here. -/

/-- A real 3-D point. -/
structure RPt where
  x : ℝ
  y : ℝ
  z : ℝ

/-- A real segment (geometry only). -/
structure RSeg where
  fromPt : RPt
  toPt : RPt

/-- `Math.atan2(y, x)` over `ℝ` (signed-zero quirks aside):
range `(-π, π]`. -/
noncomputable def atan2R (y x : ℝ) : ℝ :=
  if 0 < x then Real.arctan (y / x)
  else if x < 0 then
    (if 0 ≤ y then Real.arctan (y / x) + Real.pi else Real.arctan (y / x) - Real.pi)
  else
    (if 0 < y then Real.pi / 2 else if y < 0 then -(Real.pi / 2) else 0)

/-- `Math.atan2(py - cy, px - cx)`: the angle of a point `p` as seen from the
centre `c` (used for both the start and the end angle of an arc). -/
noncomputable def arcAngleOfPt (px py cx cy : ℝ) : ℝ := atan2R (py - cy) (px - cx)

/-- The direction correction of `processArc`: for clockwise motion subtract a
full turn when the raw end angle is not strictly below the start angle, for
counterclockwise motion add one when it is not strictly above. -/
noncomputable def arcCorrEndR (clockwise : Bool) (sa ea0 : ℝ) : ℝ :=
  if clockwise then (if sa ≤ ea0 then ea0 - 2 * Real.pi else ea0)
  else (if ea0 ≤ sa then ea0 + 2 * Real.pi else ea0)

/-- The interpolated angle at step `s`:
`startAngle + angleSpan * (s / arcSegments)`. -/
noncomputable def arcAngleR (sa span : ℝ) (s : ℕ) : ℝ :=
  sa + span * ((s : ℝ) / (arcSegments : ℝ))

/-- The polyline vertex at step `s`. -/
noncomputable def arcVertexR (cx cy radius sa span sz zs : ℝ) (s : ℕ) : RPt :=
  ⟨cx + radius * Real.cos (arcAngleR sa span s),
   cy + radius * Real.sin (arcAngleR sa span s),
   sz + zs * ((s : ℝ) / (arcSegments : ℝ))⟩

/-- The interpolation loop: emit `n` chained segments starting at step `s`
from the previous vertex `prev`; also returns the final `prev`. -/
noncomputable def arcPolyR (cx cy radius sa span sz zs : ℝ) :
    ℕ → ℕ → RPt → List RSeg × RPt
  | 0, _, prev => ([], prev)
  | n + 1, s, prev =>
      let v := arcVertexR cx cy radius sa span sz zs s
      let r := arcPolyR cx cy radius sa span sz zs n (s + 1) v
      (⟨prev, v⟩ :: r.1, r.2)

/-- The swept angle `angleSpan = endAngle - startAngle` (after the
direction correction), over `ℝ`. -/
noncomputable def arcSpanR (clockwise : Bool) (sx sy ex ey cx cy : ℝ) : ℝ :=
  arcCorrEndR clockwise (arcAngleOfPt sx sy cx cy) (arcAngleOfPt ex ey cx cy)
    - arcAngleOfPt sx sy cx cy

/-- `processArc` over `ℝ`: returns the emitted polyline, the last polyline
vertex, and the machine position after the arc (the exact commanded end
point). -/
noncomputable def processArcR (sx sy sz ex ey ez i j : ℝ) (clockwise : Bool) :
    List RSeg × RPt × RPt :=
  let cx := sx + i
  let cy := sy + j
  let radius := Real.sqrt (i * i + j * j)
  let r := arcPolyR cx cy radius (arcAngleOfPt sx sy cx cy)
    (arcSpanR clockwise sx sy ex ey cx cy) sz (ez - sz) arcSegments 1 ⟨sx, sy, sz⟩
  (r.1, r.2, ⟨ex, ey, ez⟩)

/-! ## Observation predicates and helper lemmas -/

/-- The segments of a list are chained: the first starts at `p`, and each
segment starts where the previous one ended. -/
def chainFrom : Pt3 → List Seg → Prop
  | _, [] => True
  | p, s :: rest => s.fromPt = p ∧ chainFrom s.toPt rest

/-- The endpoint of the last segment of a list (or `p` if it is empty). -/
def lastTo (p : Pt3) (l : List Seg) : Pt3 := l.foldl (fun _ s => s.toPt) p

theorem lastTo_cons (p : Pt3) (s : Seg) (l : List Seg) :
    lastTo p (s :: l) = lastTo s.toPt l := rfl

/-- Structure of the arc interpolation loop: folding `arcStep` over any list
of step indices appends one `cut` segment per index, all carrying the given
tool and line, chained from the initial `prev`, and leaves `prev` at the
last emitted endpoint. -/
theorem arcFold (ops : NumOps) (cx cy radius sa span sz zs : JSV)
    (tool : Option JSV) (ln : ℕ) (L : List ℕ) :
    ∀ acc : ArcAcc,
      ∃ T, (L.foldl (arcStep ops cx cy radius sa span sz zs tool ln) acc).segs =
            acc.segs ++ T
        ∧ T.length = L.length
        ∧ (∀ s ∈ T, s.type = .cut ∧ s.tool = tool ∧ s.line = ln)
        ∧ chainFrom acc.prev T
        ∧ (L.foldl (arcStep ops cx cy radius sa span sz zs tool ln) acc).prev =
            lastTo acc.prev T := by
  induction L with
  | nil =>
      intro acc
      exact ⟨[], by simp, by simp, by simp, trivial, rfl⟩
  | cons i L ih =>
      intro acc
      obtain ⟨T, hsegs, hlen, hall, hchain, hprev⟩ :=
        ih (arcStep ops cx cy radius sa span sz zs tool ln acc i)
      refine ⟨⟨.cut, acc.prev, arcVertex ops cx cy radius sa span sz zs i, tool, ln⟩ :: T,
        ?_, ?_, ?_, ?_, ?_⟩
      · simpa [arcStep] using hsegs
      · simpa using hlen
      · intro s hs
        rcases List.mem_cons.1 hs with h | h
        · subst h; exact ⟨rfl, rfl, rfl⟩
        · exact hall s h
      · exact ⟨rfl, by simpa [arcStep] using hchain⟩
      · rw [lastTo_cons]
        simpa [arcStep] using hprev

/-- Folding preserves any invariant preserved by each step. -/
theorem foldl_pres {α : Type _} {β : Type _} (f : α → β → α) (P : α → Prop)
    (h : ∀ a b, P a → P (f a b)) : ∀ (l : List β) (a : α), P a → P (l.foldl f a) := by
  intro l
  induction l with
  | nil => intro a ha; exact ha
  | cons b l ih => intro a ha; exact ih (f a b) (h a b ha)

/-- The word loop only ever touches `currentTool`, `toolChangeCount` and
`currentSpindleSpeed` in the machine state. -/
theorem applyWord_st (acc : LineAcc) (w : Char × List Char) :
    ∃ ct tc ss, (applyWord acc w).st =
      { acc.st with currentTool := ct, toolChangeCount := tc, currentSpindleSpeed := ss } := by
  by_cases h1 : w.1 = 'G'
  · exact ⟨_, _, _, by rw [applyWord, if_pos h1]⟩
  by_cases h2 : w.1 = 'N'
  · exact ⟨_, _, _, by rw [applyWord, if_neg h1, if_pos h2]⟩
  by_cases h3 : w.1 = 'M'
  · exact ⟨_, _, _, by rw [applyWord, if_neg h1, if_neg h2, if_pos h3]⟩
  by_cases h4 : w.1 = 'T'
  · exact ⟨_, _, _, by rw [applyWord, if_neg h1, if_neg h2, if_neg h3, if_pos h4]⟩
  by_cases h5 : w.1 = 'S'
  · exact ⟨_, _, _, by rw [applyWord, if_neg h1, if_neg h2, if_neg h3, if_neg h4, if_pos h5]⟩
  by_cases h6 : w.1 = 'X'
  · exact ⟨_, _, _, by
      rw [applyWord, if_neg h1, if_neg h2, if_neg h3, if_neg h4, if_neg h5, if_pos h6]⟩
  by_cases h7 : w.1 = 'Y'
  · exact ⟨_, _, _, by
      rw [applyWord, if_neg h1, if_neg h2, if_neg h3, if_neg h4, if_neg h5, if_neg h6,
        if_pos h7]⟩
  by_cases h8 : w.1 = 'Z'
  · exact ⟨_, _, _, by
      rw [applyWord, if_neg h1, if_neg h2, if_neg h3, if_neg h4, if_neg h5, if_neg h6,
        if_neg h7, if_pos h8]⟩
  by_cases h9 : w.1 = 'I'
  · exact ⟨_, _, _, by
      rw [applyWord, if_neg h1, if_neg h2, if_neg h3, if_neg h4, if_neg h5, if_neg h6,
        if_neg h7, if_neg h8, if_pos h9]⟩
  by_cases h10 : w.1 = 'J'
  · exact ⟨_, _, _, by
      rw [applyWord, if_neg h1, if_neg h2, if_neg h3, if_neg h4, if_neg h5, if_neg h6,
        if_neg h7, if_neg h8, if_neg h9, if_pos h10]⟩
  by_cases h11 : w.1 = 'F'
  · exact ⟨_, _, _, by
      rw [applyWord, if_neg h1, if_neg h2, if_neg h3, if_neg h4, if_neg h5, if_neg h6,
        if_neg h7, if_neg h8, if_neg h9, if_neg h10, if_pos h11]⟩
  exact ⟨_, _, _, by
    rw [applyWord, if_neg h1, if_neg h2, if_neg h3, if_neg h4, if_neg h5, if_neg h6,
      if_neg h7, if_neg h8, if_neg h9, if_neg h10, if_neg h11]⟩

/-- Iterated version of `applyWord_st`. -/
theorem wordsFold_st (ws : List (Char × List Char)) :
    ∀ acc : LineAcc, ∃ ct tc ss, (ws.foldl applyWord acc).st =
      { acc.st with currentTool := ct, toolChangeCount := tc, currentSpindleSpeed := ss } := by
  induction ws with
  | nil => intro acc; exact ⟨_, _, _, rfl⟩
  | cons w ws ih =>
      intro acc
      obtain ⟨ct, tc, ss, h⟩ := applyWord_st acc w
      obtain ⟨ct', tc', ss', h'⟩ := ih (applyWord acc w)
      exact ⟨ct', tc', ss', by rw [List.foldl_cons, h', h]⟩

/-- The G-code loop only ever touches `absoluteMode`. -/
theorem applyGCodes_st (gs : List JSV) :
    ∀ st : PState, ∃ m, (applyGCodes st gs).1 = { st with absoluteMode := m } := by
  induction gs with
  | nil => intro st; exact ⟨_, rfl⟩
  | cons g gs ih =>
      intro st
      unfold applyGCodes
      split
      · obtain ⟨m, h⟩ := ih { st with absoluteMode := true }
        exact ⟨m, by rw [h]⟩
      · split
        · obtain ⟨m, h⟩ := ih { st with absoluteMode := false }
          exact ⟨m, by rw [h]⟩
        · split
          · exact ⟨_, rfl⟩
          · exact ih st

/-- A skip code is neither `G90` nor `G91`. -/
theorem isSkip_not90 {g : JSV} (h : isSkipCode g = true) : jsEqB g (.fin 90) = false := by
  cases g <;> simp_all [isSkipCode, jsEqB]
  rcases h with (rfl | rfl) | rfl <;> norm_num

/-- A skip code is neither `G90` nor `G91`. -/
theorem isSkip_not91 {g : JSV} (h : isSkipCode g = true) : jsEqB g (.fin 91) = false := by
  cases g <;> simp_all [isSkipCode, jsEqB]
  rcases h with (rfl | rfl) | rfl <;> norm_num

/-- If some `G` value on the line is a skip code, the G-code loop aborts. -/
theorem applyGCodes_abort (gs : List JSV) :
    ∀ st : PState, (∃ g ∈ gs, isSkipCode g = true) → (applyGCodes st gs).2 = true := by
  induction gs with
  | nil => intro st h; exact absurd h (by simp)
  | cons g gs ih =>
      intro st h
      rcases h with ⟨g', hg', hskip⟩
      rcases List.mem_cons.1 hg' with rfl | hmem
      · rw [applyGCodes, if_neg (by simp [isSkip_not90 hskip]),
          if_neg (by simp [isSkip_not91 hskip]), if_pos hskip]
      · unfold applyGCodes
        split
        · exact ih _ ⟨g', hmem, hskip⟩
        · split
          · exact ih _ ⟨g', hmem, hskip⟩
          · split
            · rfl
            · exact ih _ ⟨g', hmem, hskip⟩

/-- `processLinearMove` does not touch the configuration constants. -/
theorem processLinearMove_const (ops : NumOps) (type : MoveType) (p : Params)
    (ln : ℕ) (st : PState) :
    (processLinearMove ops type p ln st).toolChangeTimeC = st.toolChangeTimeC
    ∧ (processLinearMove ops type p ln st).rapidRate = st.rapidRate
    ∧ (processLinearMove ops type p ln st).lineCount = st.lineCount
    ∧ (processLinearMove ops type p ln st).toolChangeCount = st.toolChangeCount := by
  unfold processLinearMove
  dsimp only
  split
  · exact ⟨rfl, rfl, rfl, rfl⟩
  · split <;> exact ⟨rfl, rfl, rfl, rfl⟩

/-- `processArc` does not touch the configuration constants. -/
theorem processArc_const (ops : NumOps) (type : MoveType) (p : Params)
    (ln : ℕ) (st : PState) :
    (processArc ops type p ln st).toolChangeTimeC = st.toolChangeTimeC
    ∧ (processArc ops type p ln st).rapidRate = st.rapidRate
    ∧ (processArc ops type p ln st).lineCount = st.lineCount
    ∧ (processArc ops type p ln st).toolChangeCount = st.toolChangeCount :=
  ⟨rfl, rfl, rfl, rfl⟩

/-- `dispatchMove` does not touch the configuration constants. -/
theorem dispatchMove_const (ops : NumOps) (mt : Option MoveType) (p : Params)
    (ln : ℕ) (st2 : PState) :
    (dispatchMove ops mt p ln st2).toolChangeTimeC = st2.toolChangeTimeC
    ∧ (dispatchMove ops mt p ln st2).rapidRate = st2.rapidRate
    ∧ (dispatchMove ops mt p ln st2).lineCount = st2.lineCount := by
  match mt with
  | none => exact ⟨rfl, rfl, rfl⟩
  | some m =>
      unfold dispatchMove
      dsimp only
      split
      · obtain ⟨a1, a2, a3, _⟩ :=
          processArc_const ops m p ln { st2 with lastMoveType := some m }
        exact ⟨a1, a2, a3⟩
      · obtain ⟨a1, a2, a3, _⟩ :=
          processLinearMove_const ops m p ln { st2 with lastMoveType := some m }
        exact ⟨a1, a2, a3⟩

/-- `applyFeed` only touches `feedRate`. -/
theorem applyFeed_st (p : Params) (st3 : PState) :
    ∃ f, applyFeed p st3 = { st3 with feedRate := f } := by
  unfold applyFeed
  match p.f with
  | some v => exact ⟨v, rfl⟩
  | none => exact ⟨st3.feedRate, rfl⟩

/-- `applyProgramEnd` only touches `programEnded`. -/
theorem applyProgramEnd_st (ws : List (Char × List Char)) (st4 : PState) :
    ∃ e, applyProgramEnd ws st4 = { st4 with programEnded := e } := by
  unfold applyProgramEnd
  split
  · exact ⟨true, rfl⟩
  · exact ⟨st4.programEnded, rfl⟩

/-- `parseLine` does not touch the configuration constants
(`rapidRate`, `toolChangeTime`) or the line counter. -/
theorem parseLine_const (ops : NumOps) (st : PState) (ln : ℕ) (raw : List Char) :
    (parseLine ops st ln raw).toolChangeTimeC = st.toolChangeTimeC
    ∧ (parseLine ops st ln raw).rapidRate = st.rapidRate
    ∧ (parseLine ops st ln raw).lineCount = st.lineCount := by
  unfold parseLine
  split
  · exact ⟨rfl, rfl, rfl⟩
  dsimp only
  split
  · exact ⟨rfl, rfl, rfl⟩
  split
  · exact ⟨rfl, rfl, rfl⟩
  split
  · exact ⟨rfl, rfl, rfl⟩
  obtain ⟨ct, tc, ss, hw⟩ := wordsFold_st (tokenize (cleanLine raw)) ⟨[], {}, st⟩
  obtain ⟨m, hg⟩ := applyGCodes_st
    ((tokenize (cleanLine raw)).foldl applyWord ⟨[], {}, st⟩).gCodes
    ((tokenize (cleanLine raw)).foldl applyWord ⟨[], {}, st⟩).st
  have h1 : (applyGCodes ((tokenize (cleanLine raw)).foldl applyWord ⟨[], {}, st⟩).st
      ((tokenize (cleanLine raw)).foldl applyWord ⟨[], {}, st⟩).gCodes).1.toolChangeTimeC
      = st.toolChangeTimeC := by rw [hg, hw]
  have h2 : (applyGCodes ((tokenize (cleanLine raw)).foldl applyWord ⟨[], {}, st⟩).st
      ((tokenize (cleanLine raw)).foldl applyWord ⟨[], {}, st⟩).gCodes).1.rapidRate
      = st.rapidRate := by rw [hg, hw]
  have h3 : (applyGCodes ((tokenize (cleanLine raw)).foldl applyWord ⟨[], {}, st⟩).st
      ((tokenize (cleanLine raw)).foldl applyWord ⟨[], {}, st⟩).gCodes).1.lineCount
      = st.lineCount := by rw [hg, hw]
  split
  · exact ⟨h1, h2, h3⟩
  obtain ⟨d1, d2, d3⟩ := dispatchMove_const ops
    (resolvedMoveType ((tokenize (cleanLine raw)).foldl applyWord ⟨[], {}, st⟩).gCodes
      ((tokenize (cleanLine raw)).foldl applyWord ⟨[], {}, st⟩).params
      (applyGCodes ((tokenize (cleanLine raw)).foldl applyWord ⟨[], {}, st⟩).st
        ((tokenize (cleanLine raw)).foldl applyWord ⟨[], {}, st⟩).gCodes).1)
    ((tokenize (cleanLine raw)).foldl applyWord ⟨[], {}, st⟩).params ln
    (applyGCodes ((tokenize (cleanLine raw)).foldl applyWord ⟨[], {}, st⟩).st
      ((tokenize (cleanLine raw)).foldl applyWord ⟨[], {}, st⟩).gCodes).1
  obtain ⟨f, hf⟩ := applyFeed_st
    ((tokenize (cleanLine raw)).foldl applyWord ⟨[], {}, st⟩).params
    (dispatchMove ops
      (resolvedMoveType ((tokenize (cleanLine raw)).foldl applyWord ⟨[], {}, st⟩).gCodes
        ((tokenize (cleanLine raw)).foldl applyWord ⟨[], {}, st⟩).params
        (applyGCodes ((tokenize (cleanLine raw)).foldl applyWord ⟨[], {}, st⟩).st
          ((tokenize (cleanLine raw)).foldl applyWord ⟨[], {}, st⟩).gCodes).1)
      ((tokenize (cleanLine raw)).foldl applyWord ⟨[], {}, st⟩).params ln
      (applyGCodes ((tokenize (cleanLine raw)).foldl applyWord ⟨[], {}, st⟩).st
        ((tokenize (cleanLine raw)).foldl applyWord ⟨[], {}, st⟩).gCodes).1)
  obtain ⟨e, he⟩ := applyProgramEnd_st (tokenize (cleanLine raw))
    (applyFeed ((tokenize (cleanLine raw)).foldl applyWord ⟨[], {}, st⟩).params
      (dispatchMove ops
        (resolvedMoveType ((tokenize (cleanLine raw)).foldl applyWord ⟨[], {}, st⟩).gCodes
          ((tokenize (cleanLine raw)).foldl applyWord ⟨[], {}, st⟩).params
          (applyGCodes ((tokenize (cleanLine raw)).foldl applyWord ⟨[], {}, st⟩).st
            ((tokenize (cleanLine raw)).foldl applyWord ⟨[], {}, st⟩).gCodes).1)
        ((tokenize (cleanLine raw)).foldl applyWord ⟨[], {}, st⟩).params ln
        (applyGCodes ((tokenize (cleanLine raw)).foldl applyWord ⟨[], {}, st⟩).st
          ((tokenize (cleanLine raw)).foldl applyWord ⟨[], {}, st⟩).gCodes).1))
  rw [he, hf]
  exact ⟨d1.trans h1, d2.trans h2, d3.trans h3⟩

/-- The `G` values collected by one word-loop iteration. -/
theorem applyWord_g (acc : LineAcc) (w : Char × List Char) :
    (applyWord acc w).gCodes =
      acc.gCodes ++ (if w.1 = 'G' then [jsParseFloat w.2] else []) := by
  by_cases h1 : w.1 = 'G'
  · rw [applyWord, if_pos h1, if_pos h1]
  rw [if_neg h1, List.append_nil]
  by_cases h2 : w.1 = 'N'
  · rw [applyWord, if_neg h1, if_pos h2]
  by_cases h3 : w.1 = 'M'
  · rw [applyWord, if_neg h1, if_neg h2, if_pos h3]
  by_cases h4 : w.1 = 'T'
  · rw [applyWord, if_neg h1, if_neg h2, if_neg h3, if_pos h4]
  by_cases h5 : w.1 = 'S'
  · rw [applyWord, if_neg h1, if_neg h2, if_neg h3, if_neg h4, if_pos h5]
  by_cases h6 : w.1 = 'X'
  · rw [applyWord, if_neg h1, if_neg h2, if_neg h3, if_neg h4, if_neg h5, if_pos h6]
  by_cases h7 : w.1 = 'Y'
  · rw [applyWord, if_neg h1, if_neg h2, if_neg h3, if_neg h4, if_neg h5, if_neg h6, if_pos h7]
  by_cases h8 : w.1 = 'Z'
  · rw [applyWord, if_neg h1, if_neg h2, if_neg h3, if_neg h4, if_neg h5, if_neg h6,
      if_neg h7, if_pos h8]
  by_cases h9 : w.1 = 'I'
  · rw [applyWord, if_neg h1, if_neg h2, if_neg h3, if_neg h4, if_neg h5, if_neg h6,
      if_neg h7, if_neg h8, if_pos h9]
  by_cases h10 : w.1 = 'J'
  · rw [applyWord, if_neg h1, if_neg h2, if_neg h3, if_neg h4, if_neg h5, if_neg h6,
      if_neg h7, if_neg h8, if_neg h9, if_pos h10]
  by_cases h11 : w.1 = 'F'
  · rw [applyWord, if_neg h1, if_neg h2, if_neg h3, if_neg h4, if_neg h5, if_neg h6,
      if_neg h7, if_neg h8, if_neg h9, if_neg h10, if_pos h11]
  rw [applyWord, if_neg h1, if_neg h2, if_neg h3, if_neg h4, if_neg h5, if_neg h6,
    if_neg h7, if_neg h8, if_neg h9, if_neg h10, if_neg h11]

/-- The `G` values of a word list, in order. -/
def gList (ws : List (Char × List Char)) : List JSV :=
  ws.filterMap (fun w => if w.1 = 'G' then some (jsParseFloat w.2) else none)

/-- The word loop collects exactly the `G` values of the line, in order. -/
theorem wordsFold_g (ws : List (Char × List Char)) :
    ∀ acc : LineAcc, (ws.foldl applyWord acc).gCodes = acc.gCodes ++ gList ws := by
  induction ws with
  | nil => intro acc; simp [gList]
  | cons w ws ih =>
      intro acc
      rw [List.foldl_cons, ih (applyWord acc w), applyWord_g]
      by_cases h : w.1 = 'G' <;>
        simp [gList, List.filterMap_cons, h]

/-- The `G` values of a raw line. -/
def gListOf (raw : List Char) : List JSV := gList (tokenize (cleanLine raw))

/-- The positioning mode produced by scanning a `G`-code list from mode `m`:
`G90`/`G91` toggle it, and the scan stops at the first skip code — codes
after that point have no effect. -/
def modalModeUpto : Bool → List JSV → Bool
  | m, [] => m
  | m, g :: rest =>
      if jsEqB g (.fin 90) then modalModeUpto true rest
      else if jsEqB g (.fin 91) then modalModeUpto false rest
      else if isSkipCode g then m
      else modalModeUpto m rest

/-- The G-code loop computes exactly the `modalModeUpto` scan of the line's
`G` values on the positioning mode. -/
theorem applyGCodes_mode (gs : List JSV) : ∀ st : PState,
    (applyGCodes st gs).1.absoluteMode = modalModeUpto st.absoluteMode gs := by
  induction gs with
  | nil => intro st; rfl
  | cons g gs ih =>
      intro st
      by_cases h90 : jsEqB g (.fin 90) = true
      · simp only [applyGCodes, modalModeUpto, if_pos h90]
        exact ih { st with absoluteMode := true }
      by_cases h91 : jsEqB g (.fin 91) = true
      · simp only [applyGCodes, modalModeUpto, if_neg h90, if_pos h91]
        exact ih { st with absoluteMode := false }
      by_cases hsk : isSkipCode g = true
      · simp only [applyGCodes, modalModeUpto, if_neg h90, if_neg h91, if_pos hsk]
      · simp only [applyGCodes, modalModeUpto, if_neg h90, if_neg h91, if_neg hsk]
        exact ih st

/-- `modalModeUpto` is insensitive to everything after the first skip code:
no `G` code after the skipping one is applied. -/
theorem modalModeUpto_skip (g : JSV) (hg : isSkipCode g = true) :
    ∀ (pre : List JSV) (m : Bool) (post post' : List JSV),
      modalModeUpto m (pre ++ g :: post) = modalModeUpto m (pre ++ g :: post') := by
  intro pre
  induction pre with
  | nil =>
      intro m post post'
      simp [modalModeUpto, isSkip_not90 hg, isSkip_not91 hg, hg]
  | cons p pre ih =>
      intro m post post'
      simp only [List.cons_append, modalModeUpto]
      by_cases h90 : jsEqB p (.fin 90) = true
      · simp only [if_pos h90]
        exact ih true post post'
      by_cases h91 : jsEqB p (.fin 91) = true
      · simp only [if_neg h90, if_pos h91]
        exact ih false post post'
      by_cases hsk : isSkipCode p = true
      · simp only [if_neg h90, if_neg h91, if_pos hsk]
      · simp only [if_neg h90, if_neg h91, if_neg hsk]
        exact ih m post post'

/-- The per-tool-change duration constant survives a whole parse. -/
theorem parseState_tcC (ops : NumOps) (input : String) :
    (parseState ops input).toolChangeTimeC = .fin 8 := by
  show (preState ops input).toolChangeTimeC = .fin 8
  unfold preState
  exact foldl_pres _ (fun s => s.toolChangeTimeC = .fin 8)
    (fun a b ha => ((parseLine_const ops a (b.1 + 1) b.2).1).trans ha) _ _ rfl

/-! ## Claim theorems -/

/-- C1: parsing `"G90\nG0 X10 Y0\nG1 X10 Y10 F100\n"` yields exactly two
segments — a rapid from the origin to `(10,0,0)` and a cut from `(10,0,0)`
to `(10,10,0)` — and bounds with min `(0,0,0)` and max `(10,10,0)`; this is
independent of the transcendental operations (the input has no arcs, and
the distance accumulators do not feed back into segments or bounds). -/
theorem spec_C1 (ops : NumOps) :
    (parse ops "G90\nG0 X10 Y0\nG1 X10 Y10 F100\n").segments =
      [⟨.rapid, ⟨.fin 0, .fin 0, .fin 0⟩, ⟨.fin 10, .fin 0, .fin 0⟩, none, 2⟩,
       ⟨.cut, ⟨.fin 10, .fin 0, .fin 0⟩, ⟨.fin 10, .fin 10, .fin 0⟩, none, 3⟩] ∧
    (parse ops "G90\nG0 X10 Y0\nG1 X10 Y10 F100\n").bounds =
      ⟨⟨.fin 0, .fin 0, .fin 0⟩, ⟨.fin 10, .fin 10, .fin 0⟩⟩ :=
  ⟨rfl, rfl⟩

/-- Witness for C1 at the concrete operation pack. -/
theorem spec_C1_witness :
    (parse dummyOps "G90\nG0 X10 Y0\nG1 X10 Y10 F100\n").segments =
      [⟨.rapid, ⟨.fin 0, .fin 0, .fin 0⟩, ⟨.fin 10, .fin 0, .fin 0⟩, none, 2⟩,
       ⟨.cut, ⟨.fin 10, .fin 0, .fin 0⟩, ⟨.fin 10, .fin 10, .fin 0⟩, none, 3⟩] ∧
    (parse dummyOps "G90\nG0 X10 Y0\nG1 X10 Y10 F100\n").bounds =
      ⟨⟨.fin 0, .fin 0, .fin 0⟩, ⟨.fin 10, .fin 10, .fin 0⟩⟩ :=
  spec_C1 dummyOps

/-- C6: the cycle-time estimate satisfies
`totalTime = rapidTime + cutTime + toolChangeTime` exactly (as grouped in
the source), the tool-change time is
`max(0, toolChangeCount - 1) * 8` seconds, and it is zero whenever at most
one tool change was counted. -/
theorem spec_C6 (ops : NumOps) (input : String) :
    (calculateCycleTime (parseState ops input)).totalTime =
      jsAdd (jsAdd (calculateCycleTime (parseState ops input)).rapidTime
          (calculateCycleTime (parseState ops input)).cutTime)
        (calculateCycleTime (parseState ops input)).toolChangeTime
    ∧ (calculateCycleTime (parseState ops input)).toolChangeTime =
        jsMul (jsMax (.fin 0)
          (jsSub (.fin ((parseState ops input).toolChangeCount : ℚ)) (.fin 1))) (.fin 8)
    ∧ ((parseState ops input).toolChangeCount ≤ 1 →
        (calculateCycleTime (parseState ops input)).toolChangeTime = .fin 0) := by
  have htc : (calculateCycleTime (parseState ops input)).toolChangeTime =
      jsMul (jsMax (.fin 0)
        (jsSub (.fin ((parseState ops input).toolChangeCount : ℚ)) (.fin 1))) (.fin 8) := by
    show jsMul (jsMax (.fin 0)
        (jsSub (.fin ((parseState ops input).toolChangeCount : ℚ)) (.fin 1)))
        (parseState ops input).toolChangeTimeC = _
    rw [parseState_tcC]
  refine ⟨rfl, htc, fun h => ?_⟩
  rw [htc]
  rcases Nat.le_one_iff_eq_zero_or_eq_one.mp h with h0 | h0 <;>
    rw [h0] <;> norm_num [jsSub, jsNeg, jsAdd, jsMax, jsLeB, jsMul]

/-- Witness for C6: a program with a single tool change has zero tool-change
time. -/
theorem spec_C6_witness :
    (calculateCycleTime (parseState dummyOps "T1")).toolChangeTime = .fin 0 :=
  (spec_C6 dummyOps "T1").2.2 (by decide)

/-- Counterexample to C7 as stated: on the line `"G28 T1"` the `T1` word
appears after the skipping `G28`, yet parsing the program applies it — the
tool-change counter advances and the current tool becomes 1 (the word loop
runs before the G-code loop).  No segment is emitted, as expected. -/
theorem spec_C7_cex :
    (parseState dummyOps "G28 T1").toolChangeCount = 1
    ∧ (parseState dummyOps "G28 T1").currentTool = some (.fin 1)
    ∧ (parseState dummyOps "G28 T1").segments = [] := by
  exact ⟨by decide, by decide, by decide⟩

/-- C7 (amended): when a line's `G` codes contain 28, 30 or 399, the line
emits no segment and advances no counter, the machine position, feed rate
and program-ended flag are untouched, and no `G` code after the skipping
one is applied: on a line that is actually processed (program not ended, no
`%`/`O` marker) the positioning mode is exactly the `modalModeUpto` scan of
the line's `G` values, which — last conjunct — never looks past the first
skip code, so a `G90`/`G91` after it has no effect.  `T`/`S`/`M` words
anywhere on the line are still applied (the word loop runs before the
G-code scan). -/
theorem spec_C7 (ops : NumOps) (st : PState) (ln : ℕ) (raw : List Char)
    (h : ∃ g ∈ gListOf raw, isSkipCode g = true) :
    (parseLine ops st ln raw).segments = st.segments
    ∧ (parseLine ops st ln raw).moveCount = st.moveCount
    ∧ (parseLine ops st ln raw).x = st.x
    ∧ (parseLine ops st ln raw).y = st.y
    ∧ (parseLine ops st ln raw).z = st.z
    ∧ (parseLine ops st ln raw).feedRate = st.feedRate
    ∧ (parseLine ops st ln raw).programEnded = st.programEnded
    ∧ (st.programEnded = false →
        ¬ (cleanLine raw).head? = some '%' →
        ¬ (cleanLine raw).head? = some 'O' →
        (parseLine ops st ln raw).absoluteMode =
          modalModeUpto st.absoluteMode (gListOf raw))
    ∧ (∀ (m : Bool) (pre post post' : List JSV) (g : JSV), isSkipCode g = true →
        modalModeUpto m (pre ++ g :: post) = modalModeUpto m (pre ++ g :: post')) := by
  have hins : ∀ (m : Bool) (pre post post' : List JSV) (g : JSV), isSkipCode g = true →
      modalModeUpto m (pre ++ g :: post) = modalModeUpto m (pre ++ g :: post') :=
    fun m pre post post' g hg => modalModeUpto_skip g hg pre m post post'
  unfold parseLine
  split
  · rename_i hpe
    exact ⟨rfl, rfl, rfl, rfl, rfl, rfl, rfl,
      fun hpe2 _ _ => absurd (hpe2 ▸ hpe) (by simp), hins⟩
  dsimp only
  split
  · rename_i hblank
    exfalso
    have hnil : cleanLine raw = [] := by
      cases hcl : cleanLine raw
      · rfl
      · rw [hcl] at hblank; simp at hblank
    rcases h with ⟨g, hgmem, _⟩
    have hz : gListOf raw = [] := by unfold gListOf; rw [hnil]; rfl
    rw [hz] at hgmem
    exact absurd hgmem (List.not_mem_nil g)
  split
  · rename_i hpo
    refine ⟨rfl, rfl, rfl, rfl, rfl, rfl, rfl, ?_, hins⟩
    intro _ h1 h2
    simp only [Bool.or_eq_true, decide_eq_true_eq] at hpo
    rcases hpo with hpo | hpo
    · exact absurd hpo h1
    · exact absurd hpo h2
  split
  · rename_i hwords
    exfalso
    have hnil : tokenize (cleanLine raw) = [] := by
      cases hcl : tokenize (cleanLine raw)
      · rfl
      · rw [hcl] at hwords; simp at hwords
    rcases h with ⟨g, hgmem, _⟩
    have hz : gListOf raw = [] := by unfold gListOf; rw [hnil]; rfl
    rw [hz] at hgmem
    exact absurd hgmem (List.not_mem_nil g)
  obtain ⟨ct, tc, ss, hw⟩ := wordsFold_st (tokenize (cleanLine raw)) ⟨[], {}, st⟩
  have hgz : ((tokenize (cleanLine raw)).foldl applyWord ⟨[], {}, st⟩).gCodes =
      gListOf raw := by
    rw [wordsFold_g]; rfl
  have habort : (applyGCodes ((tokenize (cleanLine raw)).foldl applyWord ⟨[], {}, st⟩).st
      ((tokenize (cleanLine raw)).foldl applyWord ⟨[], {}, st⟩).gCodes).2 = true := by
    rw [hgz]
    exact applyGCodes_abort _ _ h
  obtain ⟨m, hg⟩ := applyGCodes_st
    ((tokenize (cleanLine raw)).foldl applyWord ⟨[], {}, st⟩).gCodes
    ((tokenize (cleanLine raw)).foldl applyWord ⟨[], {}, st⟩).st
  split
  · refine ⟨by rw [hg, hw], by rw [hg, hw], by rw [hg, hw], by rw [hg, hw],
      by rw [hg, hw], by rw [hg, hw], by rw [hg, hw], ?_, hins⟩
    intro _ _ _
    calc (applyGCodes ((tokenize (cleanLine raw)).foldl applyWord ⟨[], {}, st⟩).st
          ((tokenize (cleanLine raw)).foldl applyWord ⟨[], {}, st⟩).gCodes).1.absoluteMode
        = modalModeUpto
            ((tokenize (cleanLine raw)).foldl applyWord ⟨[], {}, st⟩).st.absoluteMode
            ((tokenize (cleanLine raw)).foldl applyWord ⟨[], {}, st⟩).gCodes :=
          applyGCodes_mode _ _
      _ = modalModeUpto st.absoluteMode (gListOf raw) := by rw [hgz, hw]
  · rename_i hfalse
    exact absurd habort hfalse

/-- Witness for C7 (amended) on the line `"G28 T1"`. -/
theorem spec_C7_witness :
    (parseLine dummyOps initState 1 "G28 T1".toList).segments = initState.segments
    ∧ (parseLine dummyOps initState 1 "G28 T1".toList).moveCount = initState.moveCount
    ∧ (parseLine dummyOps initState 1 "G28 T1".toList).x = initState.x
    ∧ (parseLine dummyOps initState 1 "G28 T1".toList).y = initState.y
    ∧ (parseLine dummyOps initState 1 "G28 T1".toList).z = initState.z
    ∧ (parseLine dummyOps initState 1 "G28 T1".toList).feedRate = initState.feedRate
    ∧ (parseLine dummyOps initState 1 "G28 T1".toList).programEnded =
        initState.programEnded
    ∧ (initState.programEnded = false →
        ¬ (cleanLine "G28 T1".toList).head? = some '%' →
        ¬ (cleanLine "G28 T1".toList).head? = some 'O' →
        (parseLine dummyOps initState 1 "G28 T1".toList).absoluteMode =
          modalModeUpto initState.absoluteMode (gListOf "G28 T1".toList))
    ∧ (∀ (m : Bool) (pre post post' : List JSV) (g : JSV), isSkipCode g = true →
        modalModeUpto m (pre ++ g :: post) = modalModeUpto m (pre ++ g :: post')) :=
  spec_C7 dummyOps initState 1 "G28 T1".toList (by decide)

/-- A finite value is `===`-equal to itself (`NaN` is not). -/
theorem jsEqB_self_of_isFin {v : JSV} (h : isFin v = true) : jsEqB v v = true := by
  cases v <;> simp_all [isFin, jsEqB]

/-- Counterexample to C8 as stated: after the malformed word `"X."`
(`parseFloat(".")` is `NaN`) the machine x-coordinate is `NaN`; the
following `"G1"` line resolves a target bit-identical to the start position
(all three coordinates unchanged), yet a second (zero-net-change) segment is
appended and the move counter advances, because `NaN === NaN` is false. -/
theorem spec_C8_cex :
    (parse dummyOps "X.\nG1").segments =
      [⟨.cut, ⟨.fin 0, .fin 0, .fin 0⟩, ⟨.nan, .fin 0, .fin 0⟩, none, 1⟩,
       ⟨.cut, ⟨.nan, .fin 0, .fin 0⟩, ⟨.nan, .fin 0, .fin 0⟩, none, 2⟩]
    ∧ (parse dummyOps "X.\nG1").moveCount = 2 := by
  exact ⟨by decide, by decide⟩

/-- C8 (amended): provided the starting coordinates are actual numbers (not
`NaN`), a linear move whose resolved target is bit-identical to the starting
position is dropped entirely: the state is returned unchanged — no segment,
no distance, no counter, no bounds update. -/
theorem spec_C8 (ops : NumOps) (type : MoveType) (p : Params) (ln : ℕ) (st : PState)
    (hx : isFin st.x = true) (hy : isFin st.y = true) (hz : isFin st.z = true)
    (h : linTarget st p = ⟨st.x, st.y, st.z⟩) :
    processLinearMove ops type p ln st = st := by
  unfold processLinearMove
  dsimp only
  rw [h]
  dsimp only
  have hc : (st.x.jsEqB st.x && st.y.jsEqB st.y && st.z.jsEqB st.z) = true := by
    simp [jsEqB_self_of_isFin hx, jsEqB_self_of_isFin hy, jsEqB_self_of_isFin hz]
  rw [if_pos hc]

/-- Witness for C8 (amended): a motion line with no axis words leaves the
initial state untouched. -/
theorem spec_C8_witness :
    processLinearMove dummyOps .cut {} 1 initState = initState :=
  spec_C8 dummyOps .cut {} 1 initState (by decide) (by decide) (by decide) (by decide)

/-- `dropWhile` is idempotent. -/
theorem dropWhile_idem {α : Type _} (p : α → Bool) (l : List α) :
    (l.dropWhile p).dropWhile p = l.dropWhile p := by
  induction l with
  | nil => rfl
  | cons a l ih =>
      cases hpa : p a <;> simp [List.dropWhile_cons, hpa, ih]

/-- The cut-rectangle fold ignores rapid segments. -/
theorem foldl_cutB_rapid (l : List Seg) (h : ∀ s ∈ l, s.type = .rapid) :
    ∀ b, l.foldl cutBStep b = b := by
  induction l with
  | nil => intro b; rfl
  | cons s l ih =>
      intro b
      rw [List.foldl_cons,
        show cutBStep b s = b from by rw [cutBStep, if_pos (h s (List.mem_cons_self s l))]]
      exact ih (fun s hs => h s (List.mem_cons_of_mem _ hs)) b

/-- Appending only-rapid segments does not change the cut rectangle. -/
theorem cutBounds_append_rapid (l₁ l₂ : List Seg) (h : ∀ s ∈ l₂, s.type = .rapid) :
    cutBoundsOf (l₁ ++ l₂) = cutBoundsOf l₁ := by
  unfold cutBoundsOf
  rw [List.foldl_append]
  exact foldl_cutB_rapid l₂ h _

/-- Decomposition of the trimming loop: the original list is the trimmed
list followed by the removed suffix. -/
theorem trimSegs_decomp (l : List Seg) :
    l = trimSegs l ++
      (l.reverse.takeWhile
        (parkCond (cutBoundsOf l) (marginOf (cutBoundsOf l)))).reverse := by
  unfold trimSegs
  conv_lhs => rw [← List.reverse_reverse l,
    ← List.takeWhile_append_dropWhile
      (parkCond (cutBoundsOf l) (marginOf (cutBoundsOf l))) l.reverse]
  rw [List.reverse_append]

/-- Every removed segment satisfies the pop condition. -/
theorem trimSegs_removed_cond (l : List Seg) :
    ∀ s ∈ (l.reverse.takeWhile
        (parkCond (cutBoundsOf l) (marginOf (cutBoundsOf l)))).reverse,
      parkCond (cutBoundsOf l) (marginOf (cutBoundsOf l)) s = true := by
  intro s hs
  exact List.mem_takeWhile_imp (List.mem_reverse.mp hs)

/-- The pop condition forces the segment to be a rapid move. -/
theorem parkCond_rapid {cb : CutB} {m : JSV} {s : Seg}
    (h : parkCond cb m s = true) : s.type = .rapid := by
  have := (Bool.and_eq_true _ _).mp h
  exact of_decide_eq_true this.1

/-- C5: trimming removes only a suffix, every removed segment is a rapid
whose endpoint fails the margin test (lies outside the cut rectangle
expanded by `margin = max(0.1 * x-extent, 5)`), so no cut segment and no
in-envelope rapid is ever removed; and trimming is idempotent — a second
pass removes nothing and leaves both the list and the recomputed bounds
unchanged. -/
theorem spec_C5 (l : List Seg) :
    (∃ removed, l = trimSegs l ++ removed
      ∧ (∀ s ∈ removed, s.type = .rapid
          ∧ parkCond (cutBoundsOf l) (marginOf (cutBoundsOf l)) s = true))
    ∧ trimSegs (trimSegs l) = trimSegs l
    ∧ recomputeBounds (trimSegs (trimSegs l)) = recomputeBounds (trimSegs l) := by
  have hremoved := trimSegs_removed_cond l
  have hrapid : ∀ s ∈ (l.reverse.takeWhile
      (parkCond (cutBoundsOf l) (marginOf (cutBoundsOf l)))).reverse,
      s.type = .rapid := fun s hs => parkCond_rapid (hremoved s hs)
  have hcb : cutBoundsOf (trimSegs l) = cutBoundsOf l := by
    conv_rhs => rw [trimSegs_decomp l]
    exact (cutBounds_append_rapid _ _ hrapid).symm
  have hidem : trimSegs (trimSegs l) = trimSegs l := by
    conv_lhs => rw [trimSegs]
    rw [hcb]
    unfold trimSegs
    rw [List.reverse_reverse, dropWhile_idem]
  exact ⟨⟨_, trimSegs_decomp l, fun s hs => ⟨hrapid s hs, hremoved s hs⟩⟩,
    hidem, by rw [hidem]⟩

/-- Witness for C5 on a concrete list (one cut segment followed by a distant
trailing rapid). -/
theorem spec_C5_witness :
    trimSegs (trimSegs
      [⟨.cut, ⟨.fin 0, .fin 0, .fin 0⟩, ⟨.fin 10, .fin 0, .fin 0⟩, none, 1⟩,
       ⟨.rapid, ⟨.fin 10, .fin 0, .fin 0⟩, ⟨.fin 100, .fin 100, .fin 0⟩, none, 2⟩]) =
    trimSegs
      [⟨.cut, ⟨.fin 0, .fin 0, .fin 0⟩, ⟨.fin 10, .fin 0, .fin 0⟩, none, 1⟩,
       ⟨.rapid, ⟨.fin 10, .fin 0, .fin 0⟩, ⟨.fin 100, .fin 100, .fin 0⟩, none, 2⟩] :=
  (spec_C5 _).2.1

/-- Against the empty (sentinel) cut rectangle, the margin evaluates to 5
and the pop condition holds for every rapid segment whose endpoint x is a
finite number (anything finite is `> -Infinity + 5`). -/
theorem parkCond_empty {s : Seg} (ht : s.type = .rapid)
    (hx : isFin s.toPt.x = true) :
    parkCond emptyCutB (marginOf emptyCutB) s = true := by
  obtain ⟨q, hq⟩ : ∃ q, s.toPt.x = .fin q := by
    cases hxv : s.toPt.x <;> simp_all [isFin]
  have hm : marginOf emptyCutB = .fin 5 := by
    norm_num [marginOf, emptyCutB, jsSub, jsNeg, jsAdd, jsMul, jsMax, jsLeB]
  rw [hm]
  simp [parkCond, ht, hq, emptyCutB, jsAdd, jsGtB, jsLtB]

/-- C10: whenever the motion pass produced only rapid segments (no cut
segment at all) with finite endpoints, the cut rectangle stays at its empty
sentinel (`min = +Infinity`, `max = -Infinity`), the margin test passes for
every trailing rapid, and trimming removes all of them — the parse returns
an empty segment list and `moveCount = 0` even though the program contained
real moves. -/
theorem spec_C10 (ops : NumOps) (input : String)
    (h : ∀ s ∈ (preState ops input).segments,
      s.type = .rapid ∧ isFin s.toPt.x = true ∧ isFin s.toPt.y = true) :
    cutBoundsOf (preState ops input).segments = emptyCutB
    ∧ (parse ops input).segments = []
    ∧ (parse ops input).moveCount = 0 := by
  have hcb : cutBoundsOf (preState ops input).segments = emptyCutB :=
    foldl_cutB_rapid _ (fun s hs => (h s hs).1) _
  have htrim : trimSegs (preState ops input).segments = [] := by
    have hdef : trimSegs (preState ops input).segments =
        ((preState ops input).segments.reverse.dropWhile
          (parkCond (cutBoundsOf (preState ops input).segments)
            (marginOf (cutBoundsOf (preState ops input).segments)))).reverse := rfl
    rw [hdef, hcb,
      show ((preState ops input).segments.reverse.dropWhile
          (parkCond emptyCutB (marginOf emptyCutB))) = [] from
        List.dropWhile_eq_nil_iff.mpr (fun s hs =>
          parkCond_empty (h s (List.mem_reverse.mp hs)).1
            (h s (List.mem_reverse.mp hs)).2.1)]
    rfl
  refine ⟨hcb, htrim, ?_⟩
  show (trimSegs (preState ops input).segments).length = 0
  rw [htrim]
  rfl

/-- Witness for C10: a program of two rapid moves parses to an empty
toolpath. -/
theorem spec_C10_witness :
    cutBoundsOf (preState dummyOps "G0 X10\nG0 X20").segments = emptyCutB
    ∧ (parse dummyOps "G0 X10\nG0 X20").segments = []
    ∧ (parse dummyOps "G0 X10\nG0 X20").moveCount = 0 :=
  spec_C10 dummyOps "G0 X10\nG0 X20" (by decide)

/-- Counterexample to C4 as stated: the input `"X."` parses to one segment
(`parseFloat(".")` is `NaN`, and the zero-length check does not fire because
`NaN === NaN` is false), and the resulting bounds are `NaN` on the x axis,
so `bounds.min.x <= bounds.max.x` is false. -/
theorem spec_C4_cex :
    (parse dummyOps "X.").segments.length = 1
    ∧ (parse dummyOps "X.").bounds.min.x = .nan
    ∧ (parse dummyOps "X.").bounds.max.x = .nan
    ∧ jsLeB (parse dummyOps "X.").bounds.min.x (parse dummyOps "X.").bounds.max.x
        = false := by
  exact ⟨by decide, by decide, by decide, by decide⟩

/-- `Math.min` on two finite values. -/
theorem jsMin_fin (a v : ℚ) : jsMin (.fin a) (.fin v) = .fin (min a v) := by
  rcases le_or_lt a v with h | h
  · rw [min_eq_left h]; simp [jsMin, jsLeB, h]
  · rw [min_eq_right h.le]; simp [jsMin, jsLeB, not_le.mpr h]

/-- `Math.max` on two finite values. -/
theorem jsMax_fin (a v : ℚ) : jsMax (.fin a) (.fin v) = .fin (max a v) := by
  rcases le_or_lt a v with h | h
  · rw [max_eq_right h]; simp [jsMax, jsLeB, h]
  · rw [max_eq_left h.le]; simp [jsMax, jsLeB, not_le.mpr h]

/-- A point with finite coordinates. -/
def finPt (pt : Pt3) : Prop :=
  isFin pt.x = true ∧ isFin pt.y = true ∧ isFin pt.z = true

instance finPt.decidable : DecidablePred finPt := fun pt => by
  unfold finPt; infer_instance

/-- A well-formed nonempty bounding box: finite corners, min below max on
each axis. -/
def goodB (b : Bounds) : Prop :=
  (∃ a c, b.min.x = .fin a ∧ b.max.x = .fin c ∧ a ≤ c)
  ∧ (∃ a c, b.min.y = .fin a ∧ b.max.y = .fin c ∧ a ≤ c)
  ∧ (∃ a c, b.min.z = .fin a ∧ b.max.z = .fin c ∧ a ≤ c)

/-- A bounds update with a finite point preserves `goodB`. -/
theorem updB_good {b : Bounds} {pt : Pt3} (hpt : finPt pt) (h : goodB b) :
    goodB (updateBounds b pt.x pt.y pt.z) := by
  obtain ⟨hx, hy, hz⟩ := hpt
  obtain ⟨qx, hqx⟩ : ∃ q, pt.x = .fin q := by cases hv : pt.x <;> simp_all [isFin]
  obtain ⟨qy, hqy⟩ : ∃ q, pt.y = .fin q := by cases hv : pt.y <;> simp_all [isFin]
  obtain ⟨qz, hqz⟩ : ∃ q, pt.z = .fin q := by cases hv : pt.z <;> simp_all [isFin]
  obtain ⟨⟨ax, cx, h1x, h2x, h3x⟩, ⟨ay, cy, h1y, h2y, h3y⟩, ⟨az, cz, h1z, h2z, h3z⟩⟩ := h
  refine ⟨⟨min ax qx, max cx qx, ?_, ?_, ?_⟩,
    ⟨min ay qy, max cy qy, ?_, ?_, ?_⟩, ⟨min az qz, max cz qz, ?_, ?_, ?_⟩⟩
  · simp [updateBounds, hqx, h1x, jsMin_fin]
  · simp [updateBounds, hqx, h2x, jsMax_fin]
  · exact le_trans (min_le_left _ _) (le_trans h3x (le_max_left _ _))
  · simp [updateBounds, hqy, h1y, jsMin_fin]
  · simp [updateBounds, hqy, h2y, jsMax_fin]
  · exact le_trans (min_le_left _ _) (le_trans h3y (le_max_left _ _))
  · simp [updateBounds, hqz, h1z, jsMin_fin]
  · simp [updateBounds, hqz, h2z, jsMax_fin]
  · exact le_trans (min_le_left _ _) (le_trans h3z (le_max_left _ _))

/-- The first finite point turns the sentinel bounds into a `goodB` box. -/
theorem updB_empty_good {pt : Pt3} (hpt : finPt pt) :
    goodB (updateBounds emptyBounds pt.x pt.y pt.z) := by
  obtain ⟨hx, hy, hz⟩ := hpt
  obtain ⟨qx, hqx⟩ : ∃ q, pt.x = .fin q := by cases hv : pt.x <;> simp_all [isFin]
  obtain ⟨qy, hqy⟩ : ∃ q, pt.y = .fin q := by cases hv : pt.y <;> simp_all [isFin]
  obtain ⟨qz, hqz⟩ : ∃ q, pt.z = .fin q := by cases hv : pt.z <;> simp_all [isFin]
  exact ⟨⟨qx, qx, by simp [updateBounds, emptyBounds, hqx, jsMin, jsMax, jsLeB],
      by simp [updateBounds, emptyBounds, hqx, jsMin, jsMax, jsLeB], le_refl _⟩,
    ⟨qy, qy, by simp [updateBounds, emptyBounds, hqy, jsMin, jsMax, jsLeB],
      by simp [updateBounds, emptyBounds, hqy, jsMin, jsMax, jsLeB], le_refl _⟩,
    ⟨qz, qz, by simp [updateBounds, emptyBounds, hqz, jsMin, jsMax, jsLeB],
      by simp [updateBounds, emptyBounds, hqz, jsMin, jsMax, jsLeB], le_refl _⟩⟩

/-- The segment-wise bounds recomputation preserves `goodB` when every
endpoint is finite. -/
theorem recomputeFold_good (l : List Seg) :
    ∀ b, (∀ s ∈ l, finPt s.fromPt ∧ finPt s.toPt) → goodB b →
      goodB (l.foldl
        (fun b s => updateBounds (updateBounds b s.fromPt.x s.fromPt.y s.fromPt.z)
          s.toPt.x s.toPt.y s.toPt.z) b) := by
  induction l with
  | nil => intro b _ hb; exact hb
  | cons s l ih =>
      intro b hfin hb
      rw [List.foldl_cons]
      exact ih _ (fun s hs => hfin s (List.mem_cons_of_mem _ hs))
        (updB_good (hfin s (List.mem_cons_self s l)).2
          (updB_good (hfin s (List.mem_cons_self s l)).1 hb))

/-- On a nonempty all-finite segment list, the recomputed bounds are a
well-formed box. -/
theorem recomputeBounds_good (l : List Seg) (hne : l ≠ [])
    (hfin : ∀ s ∈ l, finPt s.fromPt ∧ finPt s.toPt) :
    goodB (recomputeBounds l) := by
  match l, hne with
  | s :: l, _ =>
      unfold recomputeBounds
      rw [List.foldl_cons]
      exact recomputeFold_good l _ (fun s hs => hfin s (List.mem_cons_of_mem _ hs))
        (updB_good (hfin s (List.mem_cons_self s l)).2
          (updB_empty_good (hfin s (List.mem_cons_self s l)).1))

/-- C4 (amended): for every input whose surviving segments have only finite
(non-`NaN`) endpoint coordinates, a parse returning at least one segment has
`bounds.min <= bounds.max` on each of the three axes.  (The unamended claim
is refuted by `spec_C4_cex`: a malformed numeric word puts `NaN` into the
bounds.) -/
theorem spec_C4 (ops : NumOps) (input : String)
    (hne : (parse ops input).segments ≠ [])
    (hfin : ∀ s ∈ (parse ops input).segments, finPt s.fromPt ∧ finPt s.toPt) :
    jsLeB (parse ops input).bounds.min.x (parse ops input).bounds.max.x = true
    ∧ jsLeB (parse ops input).bounds.min.y (parse ops input).bounds.max.y = true
    ∧ jsLeB (parse ops input).bounds.min.z (parse ops input).bounds.max.z = true := by
  have hb : (parse ops input).bounds = recomputeBounds (parse ops input).segments := rfl
  obtain ⟨⟨ax, cx, h1x, h2x, h3x⟩, ⟨ay, cy, h1y, h2y, h3y⟩, ⟨az, cz, h1z, h2z, h3z⟩⟩ :=
    recomputeBounds_good _ hne hfin
  rw [hb, h1x, h2x, h1y, h2y, h1z, h2z]
  simp [jsLeB, h3x, h3y, h3z]

/-- Witness for C4 (amended) on a one-move program. -/
theorem spec_C4_witness :
    jsLeB (parse dummyOps "G1 X10").bounds.min.x
        (parse dummyOps "G1 X10").bounds.max.x = true
    ∧ jsLeB (parse dummyOps "G1 X10").bounds.min.y
        (parse dummyOps "G1 X10").bounds.max.y = true
    ∧ jsLeB (parse dummyOps "G1 X10").bounds.min.z
        (parse dummyOps "G1 X10").bounds.max.z = true :=
  spec_C4 dummyOps "G1 X10" (by decide) (by decide)

/-- `arctan` of a nonpositive argument is nonpositive. -/
theorem arctan_nonpos' {t : ℝ} (h : t ≤ 0) : Real.arctan t ≤ 0 := by
  rw [← Real.arctan_zero]
  exact Real.arctan_strictMono.monotone h

/-- `arctan` of a positive argument is positive. -/
theorem arctan_pos' {t : ℝ} (h : 0 < t) : 0 < Real.arctan t := by
  rw [← Real.arctan_zero]
  exact Real.arctan_strictMono h

/-- The modelled `Math.atan2` has range `(-pi, pi]`. -/
theorem atan2R_range (y x : ℝ) :
    -Real.pi < atan2R y x ∧ atan2R y x ≤ Real.pi := by
  have hpi := Real.pi_pos
  unfold atan2R
  split
  · rename_i hx
    have h1 := Real.neg_pi_div_two_lt_arctan (y / x)
    have h2 := Real.arctan_lt_pi_div_two (y / x)
    constructor <;> linarith
  · split
    · rename_i hx0 hx
      split
      · rename_i hy
        have h1 := Real.neg_pi_div_two_lt_arctan (y / x)
        have h2 : Real.arctan (y / x) ≤ 0 :=
          arctan_nonpos' (div_nonpos_iff.mpr (Or.inl ⟨hy, hx.le⟩))
        constructor <;> linarith
      · rename_i hy
        have hyx : 0 < y / x := by
          rw [← neg_div_neg_eq]
          exact div_pos (by linarith) (by linarith)
        have h1 := arctan_pos' hyx
        have h2 := Real.arctan_lt_pi_div_two (y / x)
        constructor <;> linarith
    · split
      · constructor <;> linarith
      · split
        · constructor <;> linarith
        · constructor <;> linarith

/-- C3: after the direction correction the clockwise swept angle is
strictly negative and the interpolated angle sequence is non-increasing,
while the counterclockwise swept angle is strictly positive and the
sequence is non-decreasing; in particular, a raw clockwise end angle not
strictly below the start angle has a full turn subtracted, and a raw
counterclockwise end angle not strictly above it has a full turn added. -/
theorem spec_C3 (sx sy ex ey cx cy : ℝ) :
    (arcSpanR true sx sy ex ey cx cy < 0
      ∧ (∀ s t : ℕ, s ≤ t →
          arcAngleR (arcAngleOfPt sx sy cx cy) (arcSpanR true sx sy ex ey cx cy) t
            ≤ arcAngleR (arcAngleOfPt sx sy cx cy) (arcSpanR true sx sy ex ey cx cy) s)
      ∧ (¬ arcAngleOfPt ex ey cx cy < arcAngleOfPt sx sy cx cy →
          arcCorrEndR true (arcAngleOfPt sx sy cx cy) (arcAngleOfPt ex ey cx cy)
            = arcAngleOfPt ex ey cx cy - 2 * Real.pi))
    ∧ (0 < arcSpanR false sx sy ex ey cx cy
      ∧ (∀ s t : ℕ, s ≤ t →
          arcAngleR (arcAngleOfPt sx sy cx cy) (arcSpanR false sx sy ex ey cx cy) s
            ≤ arcAngleR (arcAngleOfPt sx sy cx cy) (arcSpanR false sx sy ex ey cx cy) t)
      ∧ (¬ arcAngleOfPt sx sy cx cy < arcAngleOfPt ex ey cx cy →
          arcCorrEndR false (arcAngleOfPt sx sy cx cy) (arcAngleOfPt ex ey cx cy)
            = arcAngleOfPt ex ey cx cy + 2 * Real.pi)) := by
  obtain ⟨hs1, hs2⟩ := atan2R_range (sy - cy) (sx - cx)
  obtain ⟨he1, he2⟩ := atan2R_range (ey - cy) (ex - cx)
  have hsa1 : -Real.pi < arcAngleOfPt sx sy cx cy := hs1
  have hsa2 : arcAngleOfPt sx sy cx cy ≤ Real.pi := hs2
  have hea1 : -Real.pi < arcAngleOfPt ex ey cx cy := he1
  have hea2 : arcAngleOfPt ex ey cx cy ≤ Real.pi := he2
  have hpi := Real.pi_pos
  have hfrac : ∀ s t : ℕ, s ≤ t →
      ((s : ℝ) / (arcSegments : ℝ)) ≤ ((t : ℝ) / (arcSegments : ℝ)) := by
    intro s t hst
    have h32 : (0 : ℝ) < (arcSegments : ℝ) := by norm_num [arcSegments]
    exact (div_le_div_iff_of_pos_right h32).mpr (by exact_mod_cast hst)
  have hcw : arcSpanR true sx sy ex ey cx cy < 0 := by
    unfold arcSpanR arcCorrEndR
    rcases le_or_lt (arcAngleOfPt sx sy cx cy) (arcAngleOfPt ex ey cx cy) with h | h
    · rw [if_pos rfl, if_pos h]; linarith
    · rw [if_pos rfl, if_neg (not_le.mpr h)]; linarith
  have hccw : 0 < arcSpanR false sx sy ex ey cx cy := by
    unfold arcSpanR arcCorrEndR
    rcases le_or_lt (arcAngleOfPt ex ey cx cy) (arcAngleOfPt sx sy cx cy) with h | h
    · rw [if_neg (by simp), if_pos h]; linarith
    · rw [if_neg (by simp), if_neg (not_le.mpr h)]; linarith
  refine ⟨⟨hcw, ?_, ?_⟩, hccw, ?_, ?_⟩
  · intro s t hst
    unfold arcAngleR
    have := mul_le_mul_of_nonpos_left (hfrac s t hst) hcw.le
    linarith
  · intro h
    unfold arcCorrEndR
    rw [if_pos rfl, if_pos (not_lt.mp h)]
  · intro s t hst
    unfold arcAngleR
    have := mul_le_mul_of_nonneg_left (hfrac s t hst) hccw.le
    linarith
  · intro h
    unfold arcCorrEndR
    rw [if_neg (by simp), if_pos (not_lt.mp h)]

/-- Witness for C3 at a concrete arc geometry and step pair. -/
theorem spec_C3_witness :
    arcAngleR (arcAngleOfPt 0 0 1 0) (arcSpanR true 0 0 3 0 1 0) 2
      ≤ arcAngleR (arcAngleOfPt 0 0 1 0) (arcSpanR true 0 0 3 0 1 0) 1 :=
  (spec_C3 0 0 3 0 1 0).1.2.1 1 2 (by norm_num)

/-- The final `prev` of the real arc loop is the vertex of the last step. -/
theorem arcPolyR_snd (cx cy radius sa span sz zs : ℝ) :
    ∀ (n s : ℕ) (prev : RPt),
      (arcPolyR cx cy radius sa span sz zs (n + 1) s prev).2 =
        arcVertexR cx cy radius sa span sz zs (s + n) := by
  intro n
  induction n with
  | zero => intro s prev; rfl
  | succ n ih =>
      intro s prev
      show (arcPolyR cx cy radius sa span sz zs (n + 1) (s + 1)
        (arcVertexR cx cy radius sa span sz zs s)).2 = _
      rw [ih (s + 1) (arcVertexR cx cy radius sa span sz zs s)]
      congr 1
      omega

/-- The real arc loop emits a nonempty list. -/
theorem arcPolyR_ne_nil (cx cy radius sa span sz zs : ℝ) (n s : ℕ) (prev : RPt) :
    (arcPolyR cx cy radius sa span sz zs (n + 1) s prev).1 ≠ [] := by
  show (⟨prev, arcVertexR cx cy radius sa span sz zs s⟩ ::
    (arcPolyR cx cy radius sa span sz zs n (s + 1)
      (arcVertexR cx cy radius sa span sz zs s)).1) ≠ []
  simp

/-- The endpoint of the last emitted real segment is the final `prev`. -/
theorem arcPolyR_getLast (cx cy radius sa span sz zs : ℝ) :
    ∀ (n s : ℕ) (prev : RPt),
      ((arcPolyR cx cy radius sa span sz zs (n + 1) s prev).1.getLast?).map RSeg.toPt =
        some (arcPolyR cx cy radius sa span sz zs (n + 1) s prev).2 := by
  intro n
  induction n with
  | zero => intro s prev; rfl
  | succ n ih =>
      intro s prev
      show ((⟨prev, arcVertexR cx cy radius sa span sz zs s⟩ ::
        (arcPolyR cx cy radius sa span sz zs (n + 1) (s + 1)
          (arcVertexR cx cy radius sa span sz zs s)).1).getLast?).map RSeg.toPt = _
      obtain ⟨t, ts, hts⟩ := List.exists_cons_of_ne_nil
        (arcPolyR_ne_nil cx cy radius sa span sz zs n (s + 1)
          (arcVertexR cx cy radius sa span sz zs s))
      rw [hts, List.getLast?_cons_cons, ← hts]
      exact ih (s + 1) (arcVertexR cx cy radius sa span sz zs s)

/-- The start angle of the concrete counterexample arc. -/
theorem cexSA : arcAngleOfPt 0 0 (0 + 1 : ℝ) (0 + 0 : ℝ) = Real.pi := by
  unfold arcAngleOfPt atan2R
  rw [if_neg (by norm_num), if_pos (by norm_num), if_pos (by norm_num)]
  norm_num [Real.arctan_zero]

/-- The raw end angle of the concrete counterexample arc. -/
theorem cexEA0 : arcAngleOfPt 3 0 (0 + 1 : ℝ) (0 + 0 : ℝ) = 0 := by
  unfold arcAngleOfPt atan2R
  rw [if_pos (by norm_num)]
  norm_num [Real.arctan_zero]

/-- The corrected swept angle of the concrete counterexample arc. -/
theorem cexSpan : arcSpanR false 0 0 3 0 (0 + 1 : ℝ) (0 + 0 : ℝ) = Real.pi := by
  unfold arcSpanR arcCorrEndR
  rw [cexSA, cexEA0, if_neg (by simp), if_pos Real.pi_pos.le]
  ring

/-- Counterexample to C9 as stated: for the counterclockwise arc from
`(0,0,0)` with `I=1` (centre `(1,0)`) and commanded end `X3` — a radius-1
start against a radius-2 end point, which the parser happily accepts — the
last emitted sub-segment ends at the polyline vertex `x = 2`
(`cos` of the corrected end angle `2*pi` times radius 1 from the centre),
while the machine state lands at the commanded `x = 3`.  The last
sub-segment of an arc therefore does not, in general, end at the position
the machine state holds after the arc. -/
theorem spec_C9_cex :
    ((processArcR 0 0 0 3 0 0 1 0 false).1.getLast?).map RSeg.toPt =
      some (processArcR 0 0 0 3 0 0 1 0 false).2.1
    ∧ (processArcR 0 0 0 3 0 0 1 0 false).2.1.x = 2
    ∧ (processArcR 0 0 0 3 0 0 1 0 false).2.2.x = 3
    ∧ (2 : ℝ) ≠ 3 := by
  have h32 : arcSegments = 31 + 1 := rfl
  have key := arcPolyR_getLast (0 + 1) (0 + 0) (Real.sqrt (1 * 1 + 0 * 0))
    (arcAngleOfPt 0 0 (0 + 1) (0 + 0)) (arcSpanR false 0 0 3 0 (0 + 1) (0 + 0))
    0 (0 - 0) 31 1 ⟨0, 0, 0⟩
  rw [← h32] at key
  have key2 := arcPolyR_snd (0 + 1) (0 + 0) (Real.sqrt (1 * 1 + 0 * 0))
    (arcAngleOfPt 0 0 (0 + 1) (0 + 0)) (arcSpanR false 0 0 3 0 (0 + 1) (0 + 0))
    0 (0 - 0) 31 1 ⟨0, 0, 0⟩
  rw [← h32] at key2
  refine ⟨key, ?_, rfl, by norm_num⟩
  have hx : (processArcR 0 0 0 3 0 0 1 0 false).2.1 =
      arcVertexR (0 + 1) (0 + 0) (Real.sqrt (1 * 1 + 0 * 0))
        (arcAngleOfPt 0 0 (0 + 1) (0 + 0)) (arcSpanR false 0 0 3 0 (0 + 1) (0 + 0))
        0 (0 - 0) 32 := key2
  rw [hx]
  show (0 + 1 : ℝ) + Real.sqrt (1 * 1 + 0 * 0) *
      Real.cos (arcAngleR (arcAngleOfPt 0 0 (0 + 1) (0 + 0))
        (arcSpanR false 0 0 3 0 (0 + 1) (0 + 0)) 32) = 2
  rw [cexSA, cexSpan]
  have hangle : arcAngleR Real.pi Real.pi 32 = 2 * Real.pi := by
    unfold arcAngleR arcSegments
    norm_num
    ring
  rw [hangle, Real.cos_two_pi]
  norm_num

/-- C9 (amended): a linear move's appended segment runs from the machine
position immediately before the move to the position immediately after; an
arc's emitted sub-segments are chained starting at the position before the
arc, and the machine position after the arc is the exact commanded end
point — which, as `spec_C9_cex` shows, need not coincide with the last
sub-segment's endpoint. -/
theorem spec_C9 :
    (∀ (ops : NumOps) (type : MoveType) (p : Params) (ln : ℕ) (st : PState),
      ∀ s ∈ ((processLinearMove ops type p ln st).segments).drop st.segments.length,
        s.fromPt = ⟨st.x, st.y, st.z⟩
        ∧ s.toPt = ⟨(processLinearMove ops type p ln st).x,
            (processLinearMove ops type p ln st).y,
            (processLinearMove ops type p ln st).z⟩)
    ∧ (∀ (ops : NumOps) (type : MoveType) (p : Params) (ln : ℕ) (st : PState),
      chainFrom ⟨st.x, st.y, st.z⟩
          (((processArc ops type p ln st).segments).drop st.segments.length)
        ∧ (processArc ops type p ln st).x = (arcEnd st p).x
        ∧ (processArc ops type p ln st).y = (arcEnd st p).y
        ∧ (processArc ops type p ln st).z = (arcEnd st p).z) := by
  constructor
  · intro ops type p ln st s hs
    revert hs
    unfold processLinearMove
    dsimp only
    split
    · rw [List.drop_length]
      intro hs
      exact absurd hs (List.not_mem_nil s)
    · split
      · rw [List.drop_left]
        intro hs
        rcases List.mem_singleton.mp hs with rfl
        exact ⟨rfl, rfl⟩
      · rw [List.drop_left]
        intro hs
        rcases List.mem_singleton.mp hs with rfl
        exact ⟨rfl, rfl⟩
  · intro ops type p ln st
    obtain ⟨T, h1, _, _, h4, _⟩ :=
      arcFold ops (arcCX st p) (arcCY st p) (arcRadius ops p) (arcSA ops st p)
        (arcSpan ops type st p) st.z (jsSub (arcEnd st p).z st.z) st.currentTool ln
        (List.range' 1 arcSegments) ⟨[], .fin 0, ⟨st.x, st.y, st.z⟩, st.bounds⟩
    refine ⟨?_, rfl, rfl, rfl⟩
    have hsegs : (processArc ops type p ln st).segments = st.segments ++ T := by
      simpa [processArc] using h1
    rw [hsegs, List.drop_left]
    exact h4

/-- Witness for C9 (amended) at a concrete arc. -/
theorem spec_C9_witness :
    chainFrom ⟨initState.x, initState.y, initState.z⟩
        (((processArc dummyOps .ccw_arc { x := some (.fin 3), i := some (.fin 1) } 4
            initState).segments).drop initState.segments.length)
      ∧ (processArc dummyOps .ccw_arc { x := some (.fin 3), i := some (.fin 1) } 4
          initState).x =
        (arcEnd initState { x := some (.fin 3), i := some (.fin 1) }).x
      ∧ (processArc dummyOps .ccw_arc { x := some (.fin 3), i := some (.fin 1) } 4
          initState).y =
        (arcEnd initState { x := some (.fin 3), i := some (.fin 1) }).y
      ∧ (processArc dummyOps .ccw_arc { x := some (.fin 3), i := some (.fin 1) } 4
          initState).z =
        (arcEnd initState { x := some (.fin 3), i := some (.fin 1) }).z :=
  spec_C9.2 dummyOps .ccw_arc { x := some (.fin 3), i := some (.fin 1) } 4 initState

/-- C2: every arc command is linearized into exactly 32 (`arcSegments`)
emitted segments, every one of motion kind `cut`, all carrying the arc's
source line number and the current tool, chained so that each emitted
segment starts where the previous one ended (the first starting at the arc's
start position); afterwards the machine state's x/y/z are the exact
commanded end point `arcEnd st p` (not the last polyline vertex).  This
holds for every choice of the transcendental operations, hence in
particular for the real `Math.cos`/`Math.sin`/`Math.atan2`. -/
theorem spec_C2 (ops : NumOps) (type : MoveType) (p : Params) (ln : ℕ) (st : PState) :
    ∃ T, (processArc ops type p ln st).segments = st.segments ++ T
      ∧ T.length = 32
      ∧ (∀ s ∈ T, s.type = .cut ∧ s.tool = st.currentTool ∧ s.line = ln)
      ∧ chainFrom ⟨st.x, st.y, st.z⟩ T
      ∧ (processArc ops type p ln st).x = (arcEnd st p).x
      ∧ (processArc ops type p ln st).y = (arcEnd st p).y
      ∧ (processArc ops type p ln st).z = (arcEnd st p).z := by
  obtain ⟨T, h1, h2, h3, h4, h5⟩ :=
    arcFold ops (arcCX st p) (arcCY st p) (arcRadius ops p) (arcSA ops st p)
      (arcSpan ops type st p) st.z (jsSub (arcEnd st p).z st.z) st.currentTool ln
      (List.range' 1 arcSegments) ⟨[], .fin 0, ⟨st.x, st.y, st.z⟩, st.bounds⟩
  refine ⟨T, ?_, ?_, h3, h4, rfl, rfl, rfl⟩
  · simpa [processArc] using h1
  · simpa using h2

/-- Witness for C2 at a concrete arc. -/
theorem spec_C2_witness :
    ∃ T, (processArc dummyOps .cw_arc { x := some (.fin 3), i := some (.fin 1) } 7
            initState).segments = initState.segments ++ T
      ∧ T.length = 32
      ∧ (∀ s ∈ T, s.type = .cut ∧ s.tool = initState.currentTool ∧ s.line = 7)
      ∧ chainFrom ⟨initState.x, initState.y, initState.z⟩ T
      ∧ (processArc dummyOps .cw_arc { x := some (.fin 3), i := some (.fin 1) } 7
            initState).x =
          (arcEnd initState { x := some (.fin 3), i := some (.fin 1) }).x
      ∧ (processArc dummyOps .cw_arc { x := some (.fin 3), i := some (.fin 1) } 7
            initState).y =
          (arcEnd initState { x := some (.fin 3), i := some (.fin 1) }).y
      ∧ (processArc dummyOps .cw_arc { x := some (.fin 3), i := some (.fin 1) } 7
            initState).z =
          (arcEnd initState { x := some (.fin 3), i := some (.fin 1) }).z :=
  spec_C2 dummyOps .cw_arc { x := some (.fin 3), i := some (.fin 1) } 7 initState

end GCV
